import Mathlib

/-!
# A shallow embedding of the fxt trace-file writer

This file models the Go package `fxt` (files `constants.go` and `write.go`),
a writer for the Fuchsia trace format.  The byte sink is modelled as an
infallible append-only list of bytes: `os.File.Write`/`binary.Write` never
fail in the model, so the only errors are the validation errors raised by
the Go code itself (too-long strings/names, out-of-range enum values,
missing string-table entries).

The output stream is kept as a list of `Record` values; `Record.bytes`
renders one record to the exact bytes the Go code writes (one little-endian
64-bit header word followed by the payload bytes).  Besides the fields that
determine the bytes, a `Record` carries bookkeeping fields that are written
down at the emission site and are directly readable off the Go source:
`sizeWords` is the `sizeInWords` value the Go code computed for the record,
and `strRefs`/`thrRef` list the string-table/thread-table indices the Go
code embedded into the record.

Go `uint16` counters (`nextStringIndex`, `nextThreadIndex`) are modelled as
`Nat` with explicit `% 65536` at the increment, matching Go wrap-around.
Go `uint64` header words are packed with `Nat` shifts and `Nat.lor`; the
truncation to 64 bits happens in `u64LEBytes` (reduction mod `2 ^ 64`
commutes with `|||`, and dropped shifted-out bits are exactly the bits Go
drops), so the rendered bytes agree with Go's.
-/

set_option maxRecDepth 1000000

namespace Fxt

/-! ## Constants (constants.go) -/

def recordTypeMetadata : Nat := 0
def recordTypeInitialization : Nat := 1
def recordTypeString : Nat := 2
def recordTypeThread : Nat := 3
def recordTypeEvent : Nat := 4
def recordTypeBlob : Nat := 5
def recordTypeUserspaceObject : Nat := 6
def recordTypeKernelObject : Nat := 7
def recordTypeScheduling : Nat := 8

def metadataTypeProviderInfo : Nat := 1
def metadataTypeProviderSection : Nat := 2
def metadataTypeProviderEvent : Nat := 3

def argumentTypeNull : Nat := 0
def argumentTypeInt32 : Nat := 1
def argumentTypeUInt32 : Nat := 2
def argumentTypeInt64 : Nat := 3
def argumentTypeUInt64 : Nat := 4
def argumentTypeDouble : Nat := 5
def argumentTypeString : Nat := 6
def argumentTypePointer : Nat := 7
def argumentTypeKOID : Nat := 8
def argumentTypeBool : Nat := 9

def eventTypeInstant : Nat := 0
def eventTypeCounter : Nat := 1
def eventTypeDurationBegin : Nat := 2
def eventTypeDurationEnd : Nat := 3
def eventTypeDurationComplete : Nat := 4
def eventTypeAsyncBegin : Nat := 5
def eventTypeAsyncInstant : Nat := 6
def eventTypeAsyncEnd : Nat := 7
def eventTypeFlowBegin : Nat := 8
def eventTypeFlowStep : Nat := 9
def eventTypeFlowEnd : Nat := 10

def koidTypeProcess : Nat := 1
def koidTypeThread : Nat := 2

def schedulingRecordTypeContextSwitch : Nat := 1
def schedulingRecordTypeThreadWakeup : Nat := 2

/-! ## Bytes and padding -/

/-- The eight little-endian bytes of a Go `uint64`; larger `Nat` inputs are
truncated mod `2 ^ 64` exactly as Go's conversions do. -/
def u64LEBytes (v : Nat) : List Nat :=
  [v % 256, v >>> 8 % 256, v >>> 16 % 256, v >>> 24 % 256,
   v >>> 32 % 256, v >>> 40 % 256, v >>> 48 % 256, v >>> 56 % 256]

/-- Go `[]byte(str)`: the UTF-8 bytes of a string. -/
def strBytes (s : String) : List Nat :=
  (s.data.flatMap String.utf8EncodeChar).map (fun b => b.toNat)

/-- Go `(n + 8 - 1) & (-8)`: round `n` up to a multiple of the 8-byte word. -/
def paddedLen (n : Nat) : Nat := (n + 8 - 1) / 8 * 8

/-- Go sign-extending conversion `uint64(v)` for a signed integer `v`
(two's complement bit pattern as a `Nat` below `2 ^ 64`). -/
def intToU64 (v : Int) : Nat := (v % (2 ^ 64 : Int)).toNat

/-! ## Records -/

/-- The shape of one emitted record, used to tell definition records
(String Record / Thread Record) apart from records that merely reference
table indices. -/
inductive RecKind where
  | magic
  | metadata
  | initialization
  | strDef (index : Nat) (s : String)
  | thrDef (index : Nat) (processId threadId : Nat)
  | kernelObject
  | event
  | blob
  | userspaceObject
  | scheduling
  deriving DecidableEq, Repr

/-- One emitted record: `header` is the first 64-bit word (as packed by the
Go shift/or expressions, truncated when rendered), `payload` the bytes that
follow it.  `sizeWords` is the `sizeInWords` value the emitting Go function
computed (`none` only for the magic-number record, which has no size field).
`strRefs` and `thrRef` record the string-table/thread-table indices the Go
code embedded in the record's header or argument payload. -/
structure Record where
  kind : RecKind
  header : Nat
  payload : List Nat
  sizeWords : Option Nat
  strRefs : List Nat
  thrRef : Option Nat
  deriving DecidableEq, Repr

/-- The bytes of one record: little-endian header word, then the payload. -/
def Record.bytes (r : Record) : List Nat := u64LEBytes r.header ++ r.payload

/-- `fxtMagic = []byte{0x10, 0x00, 0x04, 0x46, 0x78, 0x54, 0x16, 0x00}`,
represented as the 64-bit word whose little-endian bytes are that list. -/
def fxtMagicWord : Nat := 0x0016547846040010

def magicRecord : Record :=
  { kind := .magic, header := fxtMagicWord, payload := [],
    sizeWords := none, strRefs := [], thrRef := none }

/-! ## Errors -/

/-- The error values the Go writer can return (I/O failures of the sink are
not modelled; the sink always accepts). -/
inductive Err where
  | providerNameTooLong
  | stringTooLong
  | stringNotInterned (s : String)
  | invalidOutgoingThreadState
  | argumentSizeMismatch
  deriving DecidableEq, Repr

instance {ε α : Type} [DecidableEq ε] [DecidableEq α] : DecidableEq (Except ε α) := by
  intro a b
  cases a <;> cases b
  case error.error x y =>
    exact if h : x = y then isTrue (by rw [h]) else isFalse (by intro he; cases he; exact h rfl)
  case ok.ok x y =>
    exact if h : x = y then isTrue (by rw [h]) else isFalse (by intro he; cases he; exact h rfl)
  case error.ok x y => exact isFalse (by intro he; cases he)
  case ok.error x y => exact isFalse (by intro he; cases he)

/-! ## The writer -/

/-- The `Writer` struct: the two interning tables (Go maps, modelled as
association lists where a new binding is prepended — sound because a key is
only inserted when absent), the two `uint16` counters, and the output
stream.  `NewWriter` writes the magic-number record immediately. -/
structure Writer where
  stringTable : List (String × Nat)
  nextStringIndex : Nat
  threadTable : List ((Nat × Nat) × Nat)
  nextThreadIndex : Nat
  out : List Record
  deriving DecidableEq, Repr

/-- The writer state `NewWriter` returns (magic-number record written). -/
def Writer.init : Writer :=
  { stringTable := [], nextStringIndex := 1,
    threadTable := [], nextThreadIndex := 1,
    out := [magicRecord] }

/-- Append one record to the sink. -/
def Writer.writeRec (w : Writer) (r : Record) : Writer :=
  { w with out := w.out ++ [r] }

/-! ## Record emitters (write.go) -/

/-- The metadata record `AddProviderInfoRecord` emits on success. -/
def providerInfoRecord (providerId : Nat) (providerName : String) : Record :=
  let nameBytes := strBytes providerName
  let nameLen := nameBytes.length
  let paddedNameLen := paddedLen nameLen
  let diff := paddedNameLen - nameLen
  let sizeInWords := 1 + paddedNameLen / 8
  { kind := .metadata
  , header := (nameLen <<< 52) ||| (providerId <<< 20) |||
      (metadataTypeProviderInfo <<< 16) ||| (sizeInWords <<< 4) ||| recordTypeMetadata
  , payload := nameBytes ++ List.replicate diff 0
  , sizeWords := some sizeInWords
  , strRefs := [], thrRef := none }

/-- `AddProviderInfoRecord`: fails before writing anything when the name's
UTF-8 length exceeds `math.MaxUint8`. -/
def Writer.addProviderInfoRecord (w : Writer) (providerId : Nat)
    (providerName : String) : Except Err Unit × Writer :=
  if 255 < (strBytes providerName).length then (.error .providerNameTooLong, w)
  else (.ok (), w.writeRec (providerInfoRecord providerId providerName))

def providerSectionRecord (providerId : Nat) : Record :=
  { kind := .metadata
  , header := (providerId <<< 20) ||| (metadataTypeProviderSection <<< 16) |||
      (1 <<< 4) ||| recordTypeMetadata
  , payload := [], sizeWords := some 1, strRefs := [], thrRef := none }

/-- `AddProviderSectionRecord`. -/
def Writer.addProviderSectionRecord (w : Writer) (providerId : Nat) :
    Except Err Unit × Writer :=
  (.ok (), w.writeRec (providerSectionRecord providerId))

def providerEventRecord (providerId eventType : Nat) : Record :=
  { kind := .metadata
  , header := (eventType <<< 52) ||| (providerId <<< 20) |||
      (metadataTypeProviderEvent <<< 16) ||| (1 <<< 4) ||| recordTypeMetadata
  , payload := [], sizeWords := some 1, strRefs := [], thrRef := none }

/-- `AddProviderEventRecord`. -/
def Writer.addProviderEventRecord (w : Writer) (providerId eventType : Nat) :
    Except Err Unit × Writer :=
  (.ok (), w.writeRec (providerEventRecord providerId eventType))

def initializationRecord (numTicksPerSecond : Nat) : Record :=
  { kind := .initialization
  , header := (2 <<< 4) ||| recordTypeInitialization
  , payload := u64LEBytes numTicksPerSecond
  , sizeWords := some 2, strRefs := [], thrRef := none }

/-- `AddInitializationRecord`. -/
def Writer.addInitializationRecord (w : Writer) (numTicksPerSecond : Nat) :
    Except Err Unit × Writer :=
  (.ok (), w.writeRec (initializationRecord numTicksPerSecond))

/-- The String Record `addStringRecord` emits on success. -/
def stringRecord (stringIndex : Nat) (str : String) : Record :=
  let strBs := strBytes str
  let strLen := strBs.length
  let paddedStrLen := paddedLen strLen
  let diff := paddedStrLen - strLen
  let sizeInWords := 1 + paddedStrLen / 8
  { kind := .strDef stringIndex str
  , header := (strLen <<< 32) ||| (stringIndex <<< 16) |||
      (sizeInWords <<< 4) ||| recordTypeString
  , payload := strBs ++ List.replicate diff 0
  , sizeWords := some sizeInWords
  , strRefs := [], thrRef := none }

/-- `addStringRecord`: fails before writing anything when the string's
UTF-8 length exceeds `math.MaxUint8`. -/
def Writer.addStringRecord (w : Writer) (stringIndex : Nat) (str : String) :
    Except Err Unit × Writer :=
  if 255 < (strBytes str).length then (.error .stringTooLong, w)
  else (.ok (), w.writeRec (stringRecord stringIndex str))

/-- The Thread Record `addThreadRecord` emits. -/
def threadRecord (threadIndex processId threadId : Nat) : Record :=
  { kind := .thrDef threadIndex processId threadId
  , header := (threadIndex <<< 16) ||| (3 <<< 4) ||| recordTypeThread
  , payload := u64LEBytes processId ++ u64LEBytes threadId
  , sizeWords := some 3
  , strRefs := [], thrRef := none }

/-- `addThreadRecord` (cannot fail in the model: the sink accepts). -/
def Writer.addThreadRecord (w : Writer) (threadIndex processId threadId : Nat) :
    Except Err Unit × Writer :=
  (.ok (), w.writeRec (threadRecord threadIndex processId threadId))

/-- `getStringIndex`: read-only lookup, fails when the string was never
interned. -/
def Writer.getStringIndex (w : Writer) (str : String) : Except Err Nat :=
  match w.stringTable.lookup str with
  | some index => .ok index
  | none => .error (.stringNotInterned str)

/-- `getOrCreateStringIndex`: on a miss the counter is bumped (Go `uint16`
wrap-around) and the mapping stored *before* `addStringRecord` runs, so a
failing record write leaves the new mapping behind with no record emitted. -/
def Writer.getOrCreateStringIndex (w : Writer) (str : String) :
    Except Err Nat × Writer :=
  match w.stringTable.lookup str with
  | some index => (.ok index, w)
  | none =>
    let index := w.nextStringIndex
    let w' := { w with nextStringIndex := (w.nextStringIndex + 1) % 65536,
                       stringTable := (str, index) :: w.stringTable }
    match w'.addStringRecord index str with
    | (.ok _, w'') => (.ok index, w'')
    | (.error e, w'') => (.error e, w'')

/-- `getOrCreateThreadIndex`: same discipline for the thread table. -/
def Writer.getOrCreateThreadIndex (w : Writer) (processId threadId : Nat) :
    Except Err Nat × Writer :=
  match w.threadTable.lookup (processId, threadId) with
  | some threadIndex => (.ok threadIndex, w)
  | none =>
    let threadIndex := w.nextThreadIndex
    let w' := { w with nextThreadIndex := (w.nextThreadIndex + 1) % 65536,
                       threadTable := ((processId, threadId), threadIndex) :: w.threadTable }
    match w'.addThreadRecord threadIndex processId threadId with
    | (.ok _, w'') => (.ok threadIndex, w'')
    | (.error e, w'') => (.error e, w'')

/-- The kernel object record `SetProcessName` emits. -/
def processNameRecord (nameIndex processId : Nat) : Record :=
  let sizeInWords := 1 + 1
  let numArgs := 0
  { kind := .kernelObject
  , header := (numArgs <<< 40) ||| (nameIndex <<< 24) ||| (koidTypeProcess <<< 16) |||
      (sizeInWords <<< 4) ||| recordTypeKernelObject
  , payload := u64LEBytes processId
  , sizeWords := some sizeInWords
  , strRefs := [nameIndex], thrRef := none }

/-- `SetProcessName` (kernel object record naming a process). -/
def Writer.setProcessName (w : Writer) (processId : Nat) (name : String) :
    Except Err Unit × Writer :=
  match w.getOrCreateStringIndex name with
  | (.error e, w) => (.error e, w)
  | (.ok nameIndex, w) => (.ok (), w.writeRec (processNameRecord nameIndex processId))

/-- The kernel object record `SetThreadName` emits: header, thread id, and
one KOID argument referencing the process id. -/
def threadNameRecord (nameIndex processIndex processId threadId : Nat) : Record :=
  let argumentSizeInWords := 2
  let sizeInWords := 1 + 1 + argumentSizeInWords
  let numArgs := 1
  let argHeader := (processIndex <<< 16) ||| (argumentSizeInWords <<< 4) ||| argumentTypeKOID
  { kind := .kernelObject
  , header := (numArgs <<< 40) ||| (nameIndex <<< 24) ||| (koidTypeThread <<< 16) |||
      (sizeInWords <<< 4) ||| recordTypeKernelObject
  , payload := u64LEBytes threadId ++ u64LEBytes argHeader ++ u64LEBytes processId
  , sizeWords := some sizeInWords
  , strRefs := [nameIndex, processIndex], thrRef := none }

/-- `SetThreadName` (kernel object record naming a thread, with one KOID
argument referencing the process). -/
def Writer.setThreadName (w : Writer) (processId threadId : Nat) (name : String) :
    Except Err Unit × Writer :=
  match w.getOrCreateStringIndex name with
  | (.error e, w) => (.error e, w)
  | (.ok nameIndex, w) =>
    match w.getOrCreateStringIndex "process" with
    | (.error e, w) => (.error e, w)
    | (.ok processIndex, w) =>
      (.ok (), w.writeRec (threadNameRecord nameIndex processIndex processId threadId))

/-! ## Arguments -/

/-- The closed set of argument value kinds (`interface{}` values the Go
code accepts).  `int32`/`int64` carry a mathematical integer (the Go value),
`double` carries the IEEE-754 bit pattern of the `float64` (the bits
`binary.Write` emits; no floating-point arithmetic is performed). -/
inductive ArgValue where
  | null
  | int32 (v : Int)
  | uint32 (v : Nat)
  | int64 (v : Int)
  | uint64 (v : Nat)
  | double (bits : Nat)
  | str (s : String)
  | pointer (v : Nat)
  | koid (v : Nat)
  | bool (b : Bool)
  deriving DecidableEq, Repr

/-- `getArgumentSizeInWords`.  Over this closed variant the Go function's
`default` branch (`UnsupportedArgumentType`) is unreachable, so the model
returns the size directly. -/
def getArgumentSizeInWords : ArgValue → Nat
  | .null => 1
  | .int32 _ => 1
  | .uint32 _ => 1
  | .int64 _ => 2
  | .uint64 _ => 2
  | .double _ => 2
  | .str _ => 1
  | .pointer _ => 2
  | .koid _ => 2
  | .bool _ => 1

/-- `addArgumentStringsToTable`: intern the key, and the value too when it
is a string. -/
def Writer.addArgumentStringsToTable (w : Writer) (key : String) (value : ArgValue) :
    Except Err Unit × Writer :=
  match w.getOrCreateStringIndex key with
  | (.error e, w) => (.error e, w)
  | (.ok _, w) =>
    match value with
    | .str v =>
      match w.getOrCreateStringIndex v with
      | (.error e, w) => (.error e, w)
      | (.ok _, w) => (.ok (), w)
    | _ => (.ok (), w)

/-- `writeArgument`: resolve the key's existing index and produce the bytes
of one argument record together with its size in words.  The Go function
writes the bytes straight to the file; since the sink never fails, the
caller appending the returned bytes writes the same stream. -/
def Writer.writeArgument (w : Writer) (key : String) (value : ArgValue) :
    Except Err (List Nat × Nat) :=
  match w.getStringIndex key with
  | .error e => .error e
  | .ok keyIndex =>
    match value with
    | .null =>
      let sizeInWords := 1
      .ok (u64LEBytes ((keyIndex <<< 16) ||| (sizeInWords <<< 4) ||| argumentTypeNull),
           sizeInWords)
    | .int32 v =>
      let sizeInWords := 1
      .ok (u64LEBytes ((intToU64 v <<< 32) ||| (keyIndex <<< 16) |||
             (sizeInWords <<< 4) ||| argumentTypeInt32),
           sizeInWords)
    | .uint32 v =>
      let sizeInWords := 1
      .ok (u64LEBytes ((v <<< 32) ||| (keyIndex <<< 16) |||
             (sizeInWords <<< 4) ||| argumentTypeUInt32),
           sizeInWords)
    | .int64 v =>
      let sizeInWords := 2
      .ok (u64LEBytes ((keyIndex <<< 16) ||| (sizeInWords <<< 4) ||| argumentTypeInt64) ++
             u64LEBytes (intToU64 v),
           sizeInWords)
    | .uint64 v =>
      let sizeInWords := 2
      .ok (u64LEBytes ((keyIndex <<< 16) ||| (sizeInWords <<< 4) ||| argumentTypeUInt64) ++
             u64LEBytes v,
           sizeInWords)
    | .double bits =>
      let sizeInWords := 2
      .ok (u64LEBytes ((keyIndex <<< 16) ||| (sizeInWords <<< 4) ||| argumentTypeDouble) ++
             u64LEBytes bits,
           sizeInWords)
    | .str v =>
      match w.getStringIndex v with
      | .error e => .error e
      | .ok valueIndex =>
        let sizeInWords := 1
        .ok (u64LEBytes ((valueIndex <<< 32) ||| (keyIndex <<< 16) |||
               (sizeInWords <<< 4) ||| argumentTypeString),
             sizeInWords)
    | .pointer v =>
      let sizeInWords := 2
      .ok (u64LEBytes ((keyIndex <<< 16) ||| (sizeInWords <<< 4) ||| argumentTypePointer) ++
             u64LEBytes v,
           sizeInWords)
    | .koid v =>
      let sizeInWords := 2
      .ok (u64LEBytes ((keyIndex <<< 16) ||| (sizeInWords <<< 4) ||| argumentTypeKOID) ++
             u64LEBytes v,
           sizeInWords)
    | .bool b =>
      let valueBit := if b then 1 else 0
      let sizeInWords := 1
      .ok (u64LEBytes ((valueBit <<< 32) ||| (keyIndex <<< 16) |||
             (sizeInWords <<< 4) ||| argumentTypeBool),
           sizeInWords)

/-- The first pass of the Go argument loops: sum `getArgumentSizeInWords`
over the arguments and run `addArgumentStringsToTable` on each.  The Go
code iterates a Go map, whose `range` order Go
leaves unspecified and randomizes per loop; the model therefore takes a
*list*, each list standing for one possible enumeration of the map, so
two permutations of a list represent the same Go map. -/
def Writer.sizeAndInternArgs (w : Writer) :
    List (String × ArgValue) → Except Err Nat × Writer
  | [] => (.ok 0, w)
  | (key, value) :: rest =>
    let size := getArgumentSizeInWords value
    match w.addArgumentStringsToTable key value with
    | (.error e, w) => (.error e, w)
    | (.ok _, w) =>
      match w.sizeAndInternArgs rest with
      | (.ok restSize, w) => (.ok (size + restSize), w)
      | (.error e, w) => (.error e, w)

/-- The second pass of the Go argument loops: concatenate the bytes of
`writeArgument` over the arguments and sum the word counts it returns. -/
def Writer.encodeArgs (w : Writer) :
    List (String × ArgValue) → Except Err (List Nat × Nat)
  | [] => .ok ([], 0)
  | (key, value) :: rest =>
    match w.writeArgument key value with
    | .error e => .error e
    | .ok (bs, n) =>
      match w.encodeArgs rest with
      | .error e => .error e
      | .ok (restBs, m) => .ok (bs ++ restBs, n + m)

/-- The string-table indices an argument list embeds (bookkeeping for the
record's `strRefs` field): the key's index and, for string values, the
value's index, read from the given writer's table. -/
def Writer.argStrRefs (w : Writer) (args : List (String × ArgValue)) : List Nat :=
  args.flatMap fun kv =>
    (match w.stringTable.lookup kv.1 with | some i => [i] | none => []) ++
    (match kv.2 with
     | .str s => (match w.stringTable.lookup s with | some i => [i] | none => [])
     | _ => [])

/-! ## Events -/

/-- The event record `writeEventHeaderAndGenericData` emits: the packed
header word (name index at bit 48, category index at bit 32, thread index
at bit 24, argument count at bit 20, event type at bit 16, size at bit 4,
record type tag in the low bits), then the timestamp word, the encoded
arguments, and the caller's trailing fixed fields. -/
def eventRecord (eventType categoryIndex nameIndex threadIndex numArgs sizeInWords
    timestamp : Nat) (argBytes trailing : List Nat) (argRefs : List Nat) : Record :=
  { kind := .event
  , header := (nameIndex <<< 48) ||| (categoryIndex <<< 32) ||| (threadIndex <<< 24) |||
      (numArgs <<< 20) ||| (eventType <<< 16) ||| (sizeInWords <<< 4) ||| recordTypeEvent
  , payload := u64LEBytes timestamp ++ argBytes ++ trailing
  , sizeWords := some sizeInWords
  , strRefs := [categoryIndex, nameIndex] ++ argRefs
  , thrRef := some threadIndex }

/-- `writeEventHeaderAndGenericData`.  The trailing fixed fields the Go
callers write right after this helper returns are passed in as `trailing`
(with `extraSizeInWords` their declared word count) so that the whole event
record is assembled as one unit; no bytes intervene in the Go code, so the
stream bytes agree.  The `encodeArgs` error branch returns the writer
unchanged: after a successful intern pass it is unreachable (the sink never
fails), see `encodeArgs_ok_of_interned` below. -/
def Writer.writeEventHeaderAndGenericData (w : Writer) (eventType : Nat)
    (category name : String) (processId threadId timestamp : Nat)
    (arguments : List (String × ArgValue)) (extraSizeInWords : Nat)
    (trailing : List Nat) : Except Err Unit × Writer :=
  match w.getOrCreateStringIndex category with
  | (.error e, w) => (.error e, w)
  | (.ok categoryIndex, w) =>
  match w.getOrCreateStringIndex name with
  | (.error e, w) => (.error e, w)
  | (.ok nameIndex, w) =>
  match w.getOrCreateThreadIndex processId threadId with
  | (.error e, w) => (.error e, w)
  | (.ok threadIndex, w) =>
  match w.sizeAndInternArgs arguments with
  | (.error e, w) => (.error e, w)
  | (.ok argumentSizeInWords, w) =>
    let sizeInWords := 1 + 1 + argumentSizeInWords + extraSizeInWords
    let numArgs := arguments.length
    let header := (nameIndex <<< 48) ||| (categoryIndex <<< 32) ||| (threadIndex <<< 24) |||
      (numArgs <<< 20) ||| (eventType <<< 16) ||| (sizeInWords <<< 4) ||| recordTypeEvent
    match w.encodeArgs arguments with
    | .error e => (.error e, w)
    | .ok (argBytes, wordsWritten) =>
      if wordsWritten = argumentSizeInWords then
        (.ok (), w.writeRec (eventRecord eventType categoryIndex nameIndex threadIndex
          numArgs sizeInWords timestamp argBytes trailing (w.argStrRefs arguments)))
      else
        -- Go has written header, timestamp and argument bytes when the
        -- mismatch check fires (the caller's trailing fields are skipped).
        -- This branch is unreachable: the two passes agree, see
        -- `encodeArgs_words_eq_sizes` below.
        let r : Record :=
          { kind := .event, header := header
          , payload := u64LEBytes timestamp ++ argBytes
          , sizeWords := some sizeInWords
          , strRefs := [categoryIndex, nameIndex] ++ w.argStrRefs arguments
          , thrRef := some threadIndex }
        (.error .argumentSizeMismatch, w.writeRec r)

/-- `AddInstantEventWithArgs`. -/
def Writer.addInstantEventWithArgs (w : Writer) (category name : String)
    (processId threadId timestamp : Nat) (arguments : List (String × ArgValue)) :
    Except Err Unit × Writer :=
  w.writeEventHeaderAndGenericData eventTypeInstant category name
    processId threadId timestamp arguments 0 []

/-- `AddInstantEvent`. -/
def Writer.addInstantEvent (w : Writer) (category name : String)
    (processId threadId timestamp : Nat) : Except Err Unit × Writer :=
  w.addInstantEventWithArgs category name processId threadId timestamp []

/-- `AddCounterEvent`. -/
def Writer.addCounterEvent (w : Writer) (category name : String)
    (processId threadId timestamp : Nat) (arguments : List (String × ArgValue))
    (counterId : Nat) : Except Err Unit × Writer :=
  w.writeEventHeaderAndGenericData eventTypeCounter category name
    processId threadId timestamp arguments 1 (u64LEBytes counterId)

/-- `AddDurationBeginEventWithArgs`. -/
def Writer.addDurationBeginEventWithArgs (w : Writer) (category name : String)
    (processId threadId timestamp : Nat) (arguments : List (String × ArgValue)) :
    Except Err Unit × Writer :=
  w.writeEventHeaderAndGenericData eventTypeDurationBegin category name
    processId threadId timestamp arguments 0 []

/-- `AddDurationEndEventWithArgs`. -/
def Writer.addDurationEndEventWithArgs (w : Writer) (category name : String)
    (processId threadId timestamp : Nat) (arguments : List (String × ArgValue)) :
    Except Err Unit × Writer :=
  w.writeEventHeaderAndGenericData eventTypeDurationEnd category name
    processId threadId timestamp arguments 0 []

/-- `AddDurationCompleteEventWithArgs`. -/
def Writer.addDurationCompleteEventWithArgs (w : Writer) (category name : String)
    (processId threadId beginTimestamp endTimestamp : Nat)
    (arguments : List (String × ArgValue)) : Except Err Unit × Writer :=
  w.writeEventHeaderAndGenericData eventTypeDurationComplete category name
    processId threadId beginTimestamp arguments 1 (u64LEBytes endTimestamp)

/-- `AddAsyncBeginEventWithArgs`. -/
def Writer.addAsyncBeginEventWithArgs (w : Writer) (category name : String)
    (processId threadId timestamp asyncCorrelationId : Nat)
    (arguments : List (String × ArgValue)) : Except Err Unit × Writer :=
  w.writeEventHeaderAndGenericData eventTypeAsyncBegin category name
    processId threadId timestamp arguments 1 (u64LEBytes asyncCorrelationId)

/-- `AddAsyncInstantEventWithArgs`. -/
def Writer.addAsyncInstantEventWithArgs (w : Writer) (category name : String)
    (processId threadId timestamp asyncCorrelationId : Nat)
    (arguments : List (String × ArgValue)) : Except Err Unit × Writer :=
  w.writeEventHeaderAndGenericData eventTypeAsyncInstant category name
    processId threadId timestamp arguments 1 (u64LEBytes asyncCorrelationId)

/-- `AddAsyncEndEventWithArgs`. -/
def Writer.addAsyncEndEventWithArgs (w : Writer) (category name : String)
    (processId threadId timestamp asyncCorrelationId : Nat)
    (arguments : List (String × ArgValue)) : Except Err Unit × Writer :=
  w.writeEventHeaderAndGenericData eventTypeAsyncEnd category name
    processId threadId timestamp arguments 1 (u64LEBytes asyncCorrelationId)

/-- `AddFlowBeginEventWithArgs`. -/
def Writer.addFlowBeginEventWithArgs (w : Writer) (category name : String)
    (processId threadId timestamp flowCorrelationId : Nat)
    (arguments : List (String × ArgValue)) : Except Err Unit × Writer :=
  w.writeEventHeaderAndGenericData eventTypeFlowBegin category name
    processId threadId timestamp arguments 1 (u64LEBytes flowCorrelationId)

/-- `AddFlowStepEventWithArgs`. -/
def Writer.addFlowStepEventWithArgs (w : Writer) (category name : String)
    (processId threadId timestamp flowCorrelationId : Nat)
    (arguments : List (String × ArgValue)) : Except Err Unit × Writer :=
  w.writeEventHeaderAndGenericData eventTypeFlowStep category name
    processId threadId timestamp arguments 1 (u64LEBytes flowCorrelationId)

/-- `AddFlowEndEventWithArgs`. -/
def Writer.addFlowEndEventWithArgs (w : Writer) (category name : String)
    (processId threadId timestamp flowCorrelationId : Nat)
    (arguments : List (String × ArgValue)) : Except Err Unit × Writer :=
  w.writeEventHeaderAndGenericData eventTypeFlowEnd category name
    processId threadId timestamp arguments 1 (u64LEBytes flowCorrelationId)

/-! ## Blob, userspace object and scheduling records -/

/-- The blob record `AddBlobRecord` emits: note the absence of any bound on
`data`'s length and the unmasked `blobSize <<< 32` in the header. -/
def blobRecord (nameIndex : Nat) (data : List Nat) (blobType : Nat) : Record :=
  let blobSize := data.length
  let paddedSize := paddedLen blobSize
  let diff := paddedSize - blobSize
  let sizeInWords := 1 + paddedSize / 8
  { kind := .blob
  , header := (blobType <<< 48) ||| (blobSize <<< 32) ||| (nameIndex <<< 16) |||
      (sizeInWords <<< 4) ||| recordTypeBlob
  , payload := data ++ List.replicate diff 0
  , sizeWords := some sizeInWords
  , strRefs := [nameIndex], thrRef := none }

/-- `AddBlobRecord`. -/
def Writer.addBlobRecord (w : Writer) (name : String) (data : List Nat)
    (blobType : Nat) : Except Err Unit × Writer :=
  match w.getOrCreateStringIndex name with
  | (.error e, w) => (.error e, w)
  | (.ok nameIndex, w) => (.ok (), w.writeRec (blobRecord nameIndex data blobType))

/-- The userspace object record: the Go code hardcodes `threadIndex := 0`
(the reserved "no entry" value), so `thrRef` is `none`. -/
def userspaceObjectRecord (nameIndex numArgs sizeInWords pointerValue processId : Nat)
    (argBytes : List Nat) (argRefs : List Nat) : Record :=
  let threadIndex := 0
  { kind := .userspaceObject
  , header := (numArgs <<< 40) ||| (nameIndex <<< 24) ||| (threadIndex <<< 16) |||
      (sizeInWords <<< 4) ||| recordTypeUserspaceObject
  , payload := u64LEBytes pointerValue ++ u64LEBytes processId ++ argBytes
  , sizeWords := some sizeInWords
  , strRefs := [nameIndex] ++ argRefs, thrRef := none }

/-- `AddUserspaceObjectRecord`. -/
def Writer.addUserspaceObjectRecord (w : Writer) (name : String)
    (processId pointerValue : Nat) (arguments : List (String × ArgValue)) :
    Except Err Unit × Writer :=
  match w.getOrCreateStringIndex name with
  | (.error e, w) => (.error e, w)
  | (.ok nameIndex, w) =>
  match w.sizeAndInternArgs arguments with
  | (.error e, w) => (.error e, w)
  | (.ok argumentSizeInWords, w) =>
    let sizeInWords := 1 + 1 + 1 + argumentSizeInWords
    let threadIndex := 0
    let numArgs := arguments.length
    let header := (numArgs <<< 40) ||| (nameIndex <<< 24) ||| (threadIndex <<< 16) |||
      (sizeInWords <<< 4) ||| recordTypeUserspaceObject
    match w.encodeArgs arguments with
    | .error e => (.error e, w)
    | .ok (argBytes, wordsWritten) =>
      let r := userspaceObjectRecord nameIndex arguments.length sizeInWords
        pointerValue processId argBytes (w.argStrRefs arguments)
      if wordsWritten = argumentSizeInWords then (.ok (), w.writeRec r)
      else (.error .argumentSizeMismatch, w.writeRec r)

/-- The context-switch scheduling record. -/
def contextSwitchRecord (cpuNumber outgoingThreadState numArgs sizeInWords timestamp
    outgoingThreadId incomingThreadId : Nat) (argBytes : List Nat)
    (argRefs : List Nat) : Record :=
  { kind := .scheduling
  , header := (schedulingRecordTypeContextSwitch <<< 60) |||
      (outgoingThreadState <<< 36) ||| (cpuNumber <<< 20) ||| (numArgs <<< 16) |||
      (sizeInWords <<< 4) ||| recordTypeScheduling
  , payload := u64LEBytes timestamp ++ u64LEBytes outgoingThreadId ++
      u64LEBytes incomingThreadId ++ argBytes
  , sizeWords := some sizeInWords
  , strRefs := argRefs, thrRef := none }

/-- `AddContextSwitchRecordWithArgs`: rejects an `outgoingThreadState` that
does not fit 4 bits before anything is interned or written. -/
def Writer.addContextSwitchRecordWithArgs (w : Writer)
    (cpuNumber outgoingThreadState outgoingThreadId incomingThreadId timestamp : Nat)
    (arguments : List (String × ArgValue)) : Except Err Unit × Writer :=
  if 15 < outgoingThreadState then (.error .invalidOutgoingThreadState, w)
  else
  match w.sizeAndInternArgs arguments with
  | (.error e, w) => (.error e, w)
  | (.ok argumentSizeInWords, w) =>
    let sizeInWords := 1 + 1 + 1 + 1 + argumentSizeInWords
    let numArgs := arguments.length
    let header := (schedulingRecordTypeContextSwitch <<< 60) |||
      (outgoingThreadState <<< 36) ||| (cpuNumber <<< 20) ||| (numArgs <<< 16) |||
      (sizeInWords <<< 4) ||| recordTypeScheduling
    match w.encodeArgs arguments with
    | .error e => (.error e, w)
    | .ok (argBytes, wordsWritten) =>
      let r := contextSwitchRecord cpuNumber outgoingThreadState arguments.length
        sizeInWords timestamp outgoingThreadId incomingThreadId argBytes
        (w.argStrRefs arguments)
      if wordsWritten = argumentSizeInWords then (.ok (), w.writeRec r)
      else (.error .argumentSizeMismatch, w.writeRec r)

/-- The thread-wakeup scheduling record. -/
def threadWakeupRecord (cpuNumber numArgs sizeInWords timestamp wakingThreadId : Nat)
    (argBytes : List Nat) (argRefs : List Nat) : Record :=
  { kind := .scheduling
  , header := (schedulingRecordTypeThreadWakeup <<< 60) ||| (cpuNumber <<< 20) |||
      (numArgs <<< 16) ||| (sizeInWords <<< 4) ||| recordTypeScheduling
  , payload := u64LEBytes timestamp ++ u64LEBytes wakingThreadId ++ argBytes
  , sizeWords := some sizeInWords
  , strRefs := argRefs, thrRef := none }

/-- `AddThreadWakeupRecordWithArgs`. -/
def Writer.addThreadWakeupRecordWithArgs (w : Writer)
    (cpuNumber wakingThreadId timestamp : Nat)
    (arguments : List (String × ArgValue)) : Except Err Unit × Writer :=
  match w.sizeAndInternArgs arguments with
  | (.error e, w) => (.error e, w)
  | (.ok argumentSizeInWords, w) =>
    let sizeInWords := 1 + 1 + 1 + argumentSizeInWords
    let numArgs := arguments.length
    let header := (schedulingRecordTypeThreadWakeup <<< 60) ||| (cpuNumber <<< 20) |||
      (numArgs <<< 16) ||| (sizeInWords <<< 4) ||| recordTypeScheduling
    match w.encodeArgs arguments with
    | .error e => (.error e, w)
    | .ok (argBytes, wordsWritten) =>
      let r := threadWakeupRecord cpuNumber arguments.length sizeInWords timestamp
        wakingThreadId argBytes (w.argStrRefs arguments)
      if wordsWritten = argumentSizeInWords then (.ok (), w.writeRec r)
      else (.error .argumentSizeMismatch, w.writeRec r)

/-! ## Traces of public operations -/

/-- One public `Writer` method call with its parameters. -/
inductive Op where
  | providerInfo (providerId : Nat) (providerName : String)
  | providerSection (providerId : Nat)
  | providerEvent (providerId eventType : Nat)
  | initialization (ticks : Nat)
  | processName (processId : Nat) (name : String)
  | threadName (processId threadId : Nat) (name : String)
  | instant (category name : String) (processId threadId timestamp : Nat)
      (args : List (String × ArgValue))
  | counter (category name : String) (processId threadId timestamp : Nat)
      (args : List (String × ArgValue)) (counterId : Nat)
  | durationBegin (category name : String) (processId threadId timestamp : Nat)
      (args : List (String × ArgValue))
  | durationEnd (category name : String) (processId threadId timestamp : Nat)
      (args : List (String × ArgValue))
  | durationComplete (category name : String)
      (processId threadId beginTimestamp endTimestamp : Nat)
      (args : List (String × ArgValue))
  | asyncBegin (category name : String) (processId threadId timestamp corrId : Nat)
      (args : List (String × ArgValue))
  | asyncInstant (category name : String) (processId threadId timestamp corrId : Nat)
      (args : List (String × ArgValue))
  | asyncEnd (category name : String) (processId threadId timestamp corrId : Nat)
      (args : List (String × ArgValue))
  | flowBegin (category name : String) (processId threadId timestamp corrId : Nat)
      (args : List (String × ArgValue))
  | flowStep (category name : String) (processId threadId timestamp corrId : Nat)
      (args : List (String × ArgValue))
  | flowEnd (category name : String) (processId threadId timestamp corrId : Nat)
      (args : List (String × ArgValue))
  | blob (name : String) (data : List Nat) (blobType : Nat)
  | userspaceObject (name : String) (processId pointerValue : Nat)
      (args : List (String × ArgValue))
  | contextSwitch (cpuNumber outgoingThreadState outgoingThreadId incomingThreadId timestamp : Nat)
      (args : List (String × ArgValue))
  | threadWakeup (cpuNumber wakingThreadId timestamp : Nat)
      (args : List (String × ArgValue))
  deriving DecidableEq, Repr

/-- Run one public operation. -/
def Writer.runOp (w : Writer) : Op → Except Err Unit × Writer
  | .providerInfo pid name => w.addProviderInfoRecord pid name
  | .providerSection pid => w.addProviderSectionRecord pid
  | .providerEvent pid et => w.addProviderEventRecord pid et
  | .initialization ticks => w.addInitializationRecord ticks
  | .processName pid name => w.setProcessName pid name
  | .threadName pid tid name => w.setThreadName pid tid name
  | .instant c n p t ts args => w.addInstantEventWithArgs c n p t ts args
  | .counter c n p t ts args cid => w.addCounterEvent c n p t ts args cid
  | .durationBegin c n p t ts args => w.addDurationBeginEventWithArgs c n p t ts args
  | .durationEnd c n p t ts args => w.addDurationEndEventWithArgs c n p t ts args
  | .durationComplete c n p t b e args =>
      w.addDurationCompleteEventWithArgs c n p t b e args
  | .asyncBegin c n p t ts cid args => w.addAsyncBeginEventWithArgs c n p t ts cid args
  | .asyncInstant c n p t ts cid args => w.addAsyncInstantEventWithArgs c n p t ts cid args
  | .asyncEnd c n p t ts cid args => w.addAsyncEndEventWithArgs c n p t ts cid args
  | .flowBegin c n p t ts cid args => w.addFlowBeginEventWithArgs c n p t ts cid args
  | .flowStep c n p t ts cid args => w.addFlowStepEventWithArgs c n p t ts cid args
  | .flowEnd c n p t ts cid args => w.addFlowEndEventWithArgs c n p t ts cid args
  | .blob name data bt => w.addBlobRecord name data bt
  | .userspaceObject name pid ptr args => w.addUserspaceObjectRecord name pid ptr args
  | .contextSwitch cpu st ot it ts args =>
      w.addContextSwitchRecordWithArgs cpu st ot it ts args
  | .threadWakeup cpu tid ts args => w.addThreadWakeupRecordWithArgs cpu tid ts args

/-- Run a list of operations (keeping only the final state, as a Go caller
that ignores returned errors would). -/
def Writer.runOps (w : Writer) : List Op → Writer
  | [] => w
  | op :: rest => ((w.runOp op).2).runOps rest

/-- Did every operation of the list return without error? -/
def Writer.okRun (w : Writer) : List Op → Bool
  | [] => true
  | op :: rest =>
    (match (w.runOp op).1 with | .ok _ => true | .error _ => false) &&
      ((w.runOp op).2).okRun rest

/-! ## Derived notions used by the specification statements -/

/-- Is this record an interning definition record (String Record or Thread
Record)? -/
def isDefRecord (r : Record) : Bool :=
  match r.kind with
  | .strDef _ _ => true
  | .thrDef _ _ _ => true
  | _ => false

/-- The indices of the String Records of a stream, in emission order. -/
def stringDefIndices (rs : List Record) : List Nat :=
  rs.filterMap fun r => match r.kind with | .strDef i _ => some i | _ => none

/-- The indices of the Thread Records of a stream, in emission order. -/
def threadDefIndices (rs : List Record) : List Nat :=
  rs.filterMap fun r => match r.kind with | .thrDef i _ _ => some i | _ => none

/-- All table indices this record embeds are already-defined ones. -/
def refsOk (r : Record) (sDefs tDefs : List Nat) : Bool :=
  r.strRefs.all (fun i => sDefs.contains i) &&
    (match r.thrRef with | some i => tDefs.contains i | none => true)

/-- Every record of the stream only references string/thread indices whose
definition record appears strictly earlier (`sDefs`/`tDefs` are the indices
defined before the stream starts). -/
def wellOrdered (sDefs tDefs : List Nat) : List Record → Bool
  | [] => true
  | r :: rest =>
    refsOk r sDefs tDefs &&
      (match r.kind with
       | .strDef i _ => wellOrdered (sDefs ++ [i]) tDefs rest
       | .thrDef i _ _ => wellOrdered sDefs (tDefs ++ [i]) rest
       | _ => wellOrdered sDefs tDefs rest)

/-- The emission invariant of the two interning tables, as the spec states
it: every issued string (thread) index has exactly one String (Thread)
Record in the stream, they appear in increasing index order `1, 2, …`, and
no record references an index before its definition record. -/
def streamInv (w : Writer) : Bool :=
  stringDefIndices w.out == List.range' 1 w.stringTable.length &&
  threadDefIndices w.out == List.range' 1 w.threadTable.length &&
  wellOrdered [] [] w.out

/-- A record's declared size-in-words matches the bytes emitted for it. -/
def sizeFaithful (r : Record) : Prop :=
  ∀ n, r.sizeWords = some n → n * 8 = r.bytes.length

/-- Did this call return without error? -/
def resOk (r : Except Err Unit) : Bool :=
  match r with | .ok _ => true | .error _ => false

/-! ## Concrete inputs used to exercise the theorems -/

/-- A 256-byte string: one byte longer than the 8-bit length field allows. -/
def longStr256 : String := String.mk (List.replicate 256 'a')

/-- A 120-byte string: still legal, but its String Record needs 16 words. -/
def longStr120 : String := String.mk (List.replicate 120 'a')

/-- A maximal legal string of 255 bytes (String Record of 33 words). -/
def maxStr255 : String := String.mk (List.replicate 255 'a')

/-- An error-free sample trace. -/
def c1Run : List Op :=
  [.providerInfo 1234 "Test Provider", .providerSection 1234,
   .initialization 1000, .threadName 3 45 "Main",
   .instant "OtherThing" "EventHappened" 3 45 300 [],
   .durationBegin "Foo" "Root" 3 45 200 [("count", .int64 7)]]

/-- A counter event with a string-valued and a double-valued argument. -/
def c2Op : Op :=
  .counter "cat" "name" 3 45 100 [("k", .str "v"), ("n", .double 4607182418800017408)] 7

/-- A writer whose `uint16` string counter has wrapped around to zero
(reached after 65535 interned strings). -/
def c4Writer : Writer :=
  { stringTable := [], nextStringIndex := 0,
    threadTable := [], nextThreadIndex := 1, out := [magicRecord] }

/-- A writer whose table already holds the keys and values used below. -/
def c5Writer : Writer :=
  { stringTable := [("k", 1), ("v", 2)], nextStringIndex := 3,
    threadTable := [], nextThreadIndex := 1, out := [] }

/-- One argument of every supported value kind. -/
def c5Args : List (String × ArgValue) :=
  [("k", .null), ("k", .int32 (-7)), ("k", .uint32 3), ("k", .int64 (-1)),
   ("k", .uint64 9), ("k", .double 4607182418800017408), ("k", .str "v"),
   ("k", .pointer 4096), ("k", .koid 77), ("k", .bool true)]

/-- The bytes and word count `encodeArgs` produces for `c5Args`. -/
def c5Enc : List Nat × Nat := ((c5Writer.encodeArgs c5Args).toOption).getD ([], 0)

/-- The writer after interning the maximal 255-byte string. -/
def c6Writer : Writer := (Writer.init.addStringRecord 1 maxStr255).2

/-- The writer after `SetThreadName(3, 45, "Main")`. -/
def c8w0 : Writer := (Writer.init.runOp (.threadName 3 45 "Main")).2

/-- `c8w0` after an instant event on the same thread pair. -/
def c8w1 : Writer :=
  (c8w0.writeEventHeaderAndGenericData eventTypeInstant "OtherThing" "EventHappened"
    3 45 300 [] 0 []).2

/-- The writer after one instant event with one string argument. -/
def c9w1 : Writer :=
  (Writer.init.addInstantEventWithArgs "cat" "nm" 3 45 100 [("k", ArgValue.str "v")]).2

/-- One enumeration of a two-entry argument map. -/
def c9PermA : List (String × ArgValue) := [("a", ArgValue.int32 1), ("b", ArgValue.int32 2)]

/-- The other enumeration of the same two-entry argument map. -/
def c9PermB : List (String × ArgValue) := [("b", ArgValue.int32 2), ("a", ArgValue.int32 1)]

/-- The writer after an instant event whose argument map is enumerated as
`c9PermA`. -/
def c9wA : Writer :=
  (Writer.init.addInstantEventWithArgs "cat" "nm" 3 45 100 c9PermA).2

/-- `c9wA` after repeating the identical call with the argument map now
enumerated as `c9PermB`. -/
def c9wB : Writer :=
  (c9wA.addInstantEventWithArgs "cat" "nm" 3 45 100 c9PermB).2

/-! ## Specification-level predicates -/

/-- `w'` extends `w`: the stream has only grown by appended records, the
tables have only gained bindings, and every existing binding is kept. -/
structure Extends (w w' : Writer) : Prop where
  out_app : ∃ ds, w'.out = w.out ++ ds
  str_len : w.stringTable.length ≤ w'.stringTable.length
  thr_len : w.threadTable.length ≤ w'.threadTable.length
  str_lookup : ∀ s i, w.stringTable.lookup s = some i → w'.stringTable.lookup s = some i
  thr_lookup : ∀ k i, w.threadTable.lookup k = some i → w'.threadTable.lookup k = some i

/-- The invariant tying the tables, the counters and the stream together:
the String (Thread) Records in the stream carry exactly the indices the
table has issued, in increasing order `1, 2, …`; the counters sit one past
the number of issued indices (mod the Go `uint16` range); and no record
references an index before its definition. -/
structure Inv (w : Writer) : Prop where
  sync_str : stringDefIndices w.out = (w.stringTable.map Prod.snd).reverse
  sync_thr : threadDefIndices w.out = (w.threadTable.map Prod.snd).reverse
  dense_str : w.stringTable.map Prod.snd = (List.range' 1 w.stringTable.length).reverse
  dense_thr : w.threadTable.map Prod.snd = (List.range' 1 w.threadTable.length).reverse
  next_str : w.nextStringIndex = (1 + w.stringTable.length) % 65536
  next_thr : w.nextThreadIndex = (1 + w.threadTable.length) % 65536
  ord : wellOrdered [] [] w.out = true

/-- Every record of the list is a definition record that declares its size
truthfully (the shape of the streams the interning calls append). -/
def goodDefs (ds : List Record) : Prop :=
  ∀ r ∈ ds, isDefRecord r = true ∧ sizeFaithful r

/-- Every record of the list is a String Record declaring its size
truthfully (the shape of the streams string-interning calls append). -/
def goodStrDefs (ds : List Record) : Prop :=
  ∀ r ∈ ds, (∃ i s, r.kind = RecKind.strDef i s) ∧ sizeFaithful r

/-- Every record of the list declares its size truthfully. -/
def goodRecs (ds : List Record) : Prop := ∀ r ∈ ds, sizeFaithful r

/-- What one successful public call guarantees: the stream grows by a block
of size-faithful records, and the interning invariant survives (within the
`uint16` index space). -/
def OpSpec (w w' : Writer) : Prop :=
  (∃ ds, w'.out = w.out ++ ds ∧ goodRecs ds) ∧
  (Inv w → w'.stringTable.length ≤ 65535 → w'.threadTable.length ≤ 65535 → Inv w')

/-! ## Helper lemmas: padding, bytes, lookups -/

theorem paddedLen_le (n : Nat) : n ≤ paddedLen n := by
  unfold paddedLen; omega

theorem paddedLen_div_mul (n : Nat) : paddedLen n / 8 * 8 = paddedLen n := by
  unfold paddedLen; omega

theorem u64LEBytes_length (v : Nat) : (u64LEBytes v).length = 8 := rfl

theorem lookup_str_cons_of_ne {tbl : List (String × Nat)} {s k : String} {v : Nat}
    (h : k ≠ s) : ((k, v) :: tbl).lookup s = tbl.lookup s := by
  simp only [List.lookup]
  rw [beq_eq_false_iff_ne.2 (Ne.symm h)]

theorem lookup_thr_cons_of_ne {tbl : List ((Nat × Nat) × Nat)} {p k : Nat × Nat} {v : Nat}
    (h : k ≠ p) : ((k, v) :: tbl).lookup p = tbl.lookup p := by
  simp only [List.lookup]
  rw [beq_eq_false_iff_ne.2 (Ne.symm h)]

theorem lookup_str_cons_self {tbl : List (String × Nat)} {s : String} {v : Nat} :
    ((s, v) :: tbl).lookup s = some v := by
  simp [List.lookup]

theorem lookup_thr_cons_self {tbl : List ((Nat × Nat) × Nat)} {p : Nat × Nat} {v : Nat} :
    ((p, v) :: tbl).lookup p = some v := by
  simp [List.lookup]

/-! ## Interning-call characterizations -/

theorem goc_str_hit {w : Writer} {s : String} {i : Nat}
    (h : w.stringTable.lookup s = some i) :
    w.getOrCreateStringIndex s = (.ok i, w) := by
  unfold Writer.getOrCreateStringIndex
  rw [h]

theorem goc_str_miss_ok {w : Writer} {s : String}
    (h : w.stringTable.lookup s = none) (hlen : (strBytes s).length ≤ 255) :
    w.getOrCreateStringIndex s =
      (.ok w.nextStringIndex,
       { stringTable := (s, w.nextStringIndex) :: w.stringTable
       , nextStringIndex := (w.nextStringIndex + 1) % 65536
       , threadTable := w.threadTable
       , nextThreadIndex := w.nextThreadIndex
       , out := w.out ++ [stringRecord w.nextStringIndex s] }) := by
  unfold Writer.getOrCreateStringIndex Writer.addStringRecord Writer.writeRec
  rw [h]
  simp [Nat.not_lt.2 hlen]

theorem goc_str_miss_err {w : Writer} {s : String}
    (h : w.stringTable.lookup s = none) (hlen : 255 < (strBytes s).length) :
    w.getOrCreateStringIndex s =
      (.error .stringTooLong,
       { stringTable := (s, w.nextStringIndex) :: w.stringTable
       , nextStringIndex := (w.nextStringIndex + 1) % 65536
       , threadTable := w.threadTable
       , nextThreadIndex := w.nextThreadIndex
       , out := w.out }) := by
  unfold Writer.getOrCreateStringIndex Writer.addStringRecord
  rw [h]
  simp [hlen]

theorem goc_thr_hit {w : Writer} {p t i : Nat}
    (h : w.threadTable.lookup (p, t) = some i) :
    w.getOrCreateThreadIndex p t = (.ok i, w) := by
  unfold Writer.getOrCreateThreadIndex
  rw [h]

theorem goc_thr_miss {w : Writer} {p t : Nat}
    (h : w.threadTable.lookup (p, t) = none) :
    w.getOrCreateThreadIndex p t =
      (.ok w.nextThreadIndex,
       { stringTable := w.stringTable
       , nextStringIndex := w.nextStringIndex
       , threadTable := ((p, t), w.nextThreadIndex) :: w.threadTable
       , nextThreadIndex := (w.nextThreadIndex + 1) % 65536
       , out := w.out ++ [threadRecord w.nextThreadIndex p t] }) := by
  unfold Writer.getOrCreateThreadIndex Writer.addThreadRecord Writer.writeRec
  rw [h]

/-! ## Monotonicity: every call only appends records and grows the tables -/

theorem Extends.refl (w : Writer) : Extends w w :=
  ⟨⟨[], by simp⟩, Nat.le.refl, Nat.le.refl, fun _ _ h => h, fun _ _ h => h⟩

theorem Extends.trans {w₁ w₂ w₃ : Writer} (h : Extends w₁ w₂) (h' : Extends w₂ w₃) :
    Extends w₁ w₃ := by
  obtain ⟨ds, hds⟩ := h.out_app
  obtain ⟨ds', hds'⟩ := h'.out_app
  exact ⟨⟨ds ++ ds', by simp [hds', hds]⟩, h.str_len.trans h'.str_len,
    h.thr_len.trans h'.thr_len,
    fun s i hi => h'.str_lookup s i (h.str_lookup s i hi),
    fun k i hi => h'.thr_lookup k i (h.thr_lookup k i hi)⟩

theorem extends_writeRec (w : Writer) (r : Record) : Extends w (w.writeRec r) :=
  ⟨⟨[r], rfl⟩, Nat.le.refl, Nat.le.refl, fun _ _ h => h, fun _ _ h => h⟩

/-- Prepending a fresh string binding keeps all existing bindings. -/
theorem extends_str_cons {w : Writer} {s : String} {i : Nat}
    (h : w.stringTable.lookup s = none) {w' : Writer}
    (hw : w'.stringTable = (s, i) :: w.stringTable)
    (hthr : w'.threadTable = w.threadTable)
    (hout : ∃ ds, w'.out = w.out ++ ds) : Extends w w' := by
  refine ⟨hout, ?_, ?_, ?_, ?_⟩
  · rw [hw]; simp
  · rw [hthr]
  · intro s' i' hi
    rw [hw]
    have hne : s ≠ s' := by
      intro he; rw [he, hi] at h; cases h
    rw [lookup_str_cons_of_ne hne]; exact hi
  · intro k i' hi; rw [hthr]; exact hi

theorem extends_thr_cons {w : Writer} {k : Nat × Nat} {i : Nat}
    (h : w.threadTable.lookup k = none) {w' : Writer}
    (hw : w'.threadTable = (k, i) :: w.threadTable)
    (hstr : w'.stringTable = w.stringTable)
    (hout : ∃ ds, w'.out = w.out ++ ds) : Extends w w' := by
  refine ⟨hout, ?_, ?_, ?_, ?_⟩
  · rw [hstr]
  · rw [hw]; simp
  · intro s' i' hi; rw [hstr]; exact hi
  · intro k' i' hi
    rw [hw]
    have hne : k ≠ k' := by
      intro he; rw [he, hi] at h; cases h
    rw [lookup_thr_cons_of_ne hne]; exact hi

theorem goc_str_extends (w : Writer) (s : String) :
    Extends w (w.getOrCreateStringIndex s).2 := by
  cases h : w.stringTable.lookup s with
  | some i => rw [goc_str_hit h]; exact Extends.refl w
  | none =>
    by_cases hlen : (strBytes s).length ≤ 255
    · rw [goc_str_miss_ok h hlen]
      exact extends_str_cons h rfl rfl ⟨_, rfl⟩
    · rw [goc_str_miss_err h (Nat.lt_of_not_le hlen)]
      exact extends_str_cons h rfl rfl ⟨[], by simp⟩

theorem goc_thr_extends (w : Writer) (p t : Nat) :
    Extends w (w.getOrCreateThreadIndex p t).2 := by
  cases h : w.threadTable.lookup (p, t) with
  | some i => rw [goc_thr_hit h]; exact Extends.refl w
  | none =>
    rw [goc_thr_miss h]
    exact extends_thr_cons h rfl rfl ⟨_, rfl⟩

theorem addArgStrings_extends (w : Writer) (key : String) (value : ArgValue) :
    Extends w (w.addArgumentStringsToTable key value).2 := by
  unfold Writer.addArgumentStringsToTable
  rcases hk : w.getOrCreateStringIndex key with ⟨res, w₁⟩
  have h₁ : Extends w w₁ := by
    have := goc_str_extends w key; rwa [hk] at this
  cases res with
  | error e => exact h₁
  | ok i =>
    cases value with
    | str v =>
      simp only
      rcases hv : w₁.getOrCreateStringIndex v with ⟨res', w₂⟩
      have h₂ : Extends w₁ w₂ := by
        have := goc_str_extends w₁ v; rwa [hv] at this
      cases res' with
      | error e => exact h₁.trans h₂
      | ok j => exact h₁.trans h₂
    | null => exact h₁
    | int32 v => exact h₁
    | uint32 v => exact h₁
    | int64 v => exact h₁
    | uint64 v => exact h₁
    | double v => exact h₁
    | pointer v => exact h₁
    | koid v => exact h₁
    | bool v => exact h₁

theorem sizeAndInternArgs_extends (w : Writer) (args : List (String × ArgValue)) :
    Extends w (w.sizeAndInternArgs args).2 := by
  induction args generalizing w with
  | nil => exact Extends.refl w
  | cons kv rest ih =>
    rcases kv with ⟨key, value⟩
    unfold Writer.sizeAndInternArgs
    rcases hk : w.addArgumentStringsToTable key value with ⟨res, w₁⟩
    have h₁ : Extends w w₁ := by
      have := addArgStrings_extends w key value; rwa [hk] at this
    cases res with
    | error e => exact h₁
    | ok u =>
      simp only
      rcases hr : w₁.sizeAndInternArgs rest with ⟨res', w₂⟩
      have h₂ : Extends w₁ w₂ := by
        have := ih w₁; rwa [hr] at this
      cases res' with
      | ok n => exact h₁.trans h₂
      | error e => exact h₁.trans h₂

/-! ## The interning invariant -/

theorem mem_of_lookup_str {tbl : List (String × Nat)} {s : String} {i : Nat}
    (h : tbl.lookup s = some i) : (s, i) ∈ tbl := by
  induction tbl with
  | nil => cases h
  | cons kv tl ih =>
    rcases kv with ⟨k, v⟩
    simp only [List.lookup] at h
    by_cases he : s = k
    · subst he
      simp at h
      subst h
      exact List.mem_cons_self _ _
    · rw [beq_eq_false_iff_ne.2 he] at h
      exact List.mem_cons_of_mem _ (ih h)

theorem mem_of_lookup_thr {tbl : List ((Nat × Nat) × Nat)} {k : Nat × Nat} {i : Nat}
    (h : tbl.lookup k = some i) : (k, i) ∈ tbl := by
  induction tbl with
  | nil => cases h
  | cons kv tl ih =>
    rcases kv with ⟨k', v⟩
    simp only [List.lookup] at h
    by_cases he : k = k'
    · subst he
      simp at h
      subst h
      exact List.mem_cons_self _ _
    · rw [beq_eq_false_iff_ne.2 he] at h
      exact List.mem_cons_of_mem _ (ih h)

theorem stringDefIndices_append (xs ys : List Record) :
    stringDefIndices (xs ++ ys) = stringDefIndices xs ++ stringDefIndices ys :=
  List.filterMap_append xs ys _

theorem threadDefIndices_append (xs ys : List Record) :
    threadDefIndices (xs ++ ys) = threadDefIndices xs ++ threadDefIndices ys :=
  List.filterMap_append xs ys _

theorem stringDefIndices_single_of_not_def {r : Record} (h : isDefRecord r = false) :
    stringDefIndices [r] = [] := by
  unfold isDefRecord at h
  unfold stringDefIndices
  cases hk : r.kind <;> simp [List.filterMap, hk] <;> rw [hk] at h <;> simp at h

theorem threadDefIndices_single_of_not_def {r : Record} (h : isDefRecord r = false) :
    threadDefIndices [r] = [] := by
  unfold isDefRecord at h
  unfold threadDefIndices
  cases hk : r.kind <;> simp [List.filterMap, hk] <;> rw [hk] at h <;> simp at h

theorem wellOrdered_append (xs : List Record) (s t : List Nat) (ys : List Record) :
    wellOrdered s t (xs ++ ys) =
      (wellOrdered s t xs &&
       wellOrdered (s ++ stringDefIndices xs) (t ++ threadDefIndices xs) ys) := by
  induction xs generalizing s t with
  | nil => simp [wellOrdered, stringDefIndices, threadDefIndices]
  | cons r xs ih =>
    simp only [List.cons_append, wellOrdered]
    cases hk : r.kind <;>
      simp [hk, ih, stringDefIndices, threadDefIndices, List.filterMap_cons,
        List.append_assoc, Bool.and_assoc]

theorem Inv.str_mem {w : Writer} (hw : Inv w) {s : String} {i : Nat}
    (h : w.stringTable.lookup s = some i) : i ∈ stringDefIndices w.out := by
  rw [hw.sync_str, List.mem_reverse]
  exact List.mem_map.2 ⟨(s, i), mem_of_lookup_str h, rfl⟩

theorem Inv.thr_mem {w : Writer} (hw : Inv w) {k : Nat × Nat} {i : Nat}
    (h : w.threadTable.lookup k = some i) : i ∈ threadDefIndices w.out := by
  rw [hw.sync_thr, List.mem_reverse]
  exact List.mem_map.2 ⟨(k, i), mem_of_lookup_thr h, rfl⟩

theorem Inv.init : Inv Writer.init := by
  refine ⟨?_, ?_, ?_, ?_, ?_, ?_, ?_⟩ <;> rfl

/-- Appending a record that is not a definition record and only references
already-interned indices preserves the invariant. -/
theorem Inv.writeRec {w : Writer} (hw : Inv w) {r : Record}
    (hdef : isDefRecord r = false)
    (hrefs : ∀ i ∈ r.strRefs, ∃ s, w.stringTable.lookup s = some i)
    (hthr : ∀ i, r.thrRef = some i → ∃ k, w.threadTable.lookup k = some i) :
    Inv (w.writeRec r) := by
  have hbody : refsOk r (stringDefIndices w.out) (threadDefIndices w.out) = true := by
    unfold refsOk
    rw [Bool.and_eq_true]; refine ⟨?_, ?_⟩
    · refine List.all_eq_true.2 ?_
      intro i hi
      obtain ⟨s, hs⟩ := hrefs i hi
      exact List.elem_iff.2 (hw.str_mem hs)
    · cases ht : r.thrRef with
      | none => rfl
      | some i =>
        obtain ⟨k, hk⟩ := hthr i ht
        exact List.elem_iff.2 (hw.thr_mem hk)
  refine ⟨?_, ?_, hw.dense_str, hw.dense_thr, hw.next_str, hw.next_thr, ?_⟩
  · show stringDefIndices (w.out ++ [r]) = _
    rw [stringDefIndices_append, stringDefIndices_single_of_not_def hdef,
      List.append_nil]
    exact hw.sync_str
  · show threadDefIndices (w.out ++ [r]) = _
    rw [threadDefIndices_append, threadDefIndices_single_of_not_def hdef,
      List.append_nil]
    exact hw.sync_thr
  · show wellOrdered [] [] (w.out ++ [r]) = true
    rw [wellOrdered_append]
    rw [Bool.and_eq_true]; refine ⟨hw.ord, ?_⟩
    unfold wellOrdered
    rw [List.nil_append, List.nil_append]
    rw [Bool.and_eq_true]; refine ⟨hbody, ?_⟩
    cases hk : r.kind <;> simp [hk, wellOrdered]

theorem stringRecord_kind (i : Nat) (s : String) :
    (stringRecord i s).kind = .strDef i s := rfl

theorem threadRecord_kind (i p t : Nat) :
    (threadRecord i p t).kind = .thrDef i p t := rfl

theorem stringDefIndices_stringRecord (i : Nat) (s : String) :
    stringDefIndices [stringRecord i s] = [i] := by
  simp [stringDefIndices, List.filterMap_cons, stringRecord_kind]

theorem threadDefIndices_stringRecord (i : Nat) (s : String) :
    threadDefIndices [stringRecord i s] = [] := by
  simp [threadDefIndices, List.filterMap_cons, stringRecord_kind]

theorem stringDefIndices_threadRecord (i p t : Nat) :
    stringDefIndices [threadRecord i p t] = [] := by
  simp [stringDefIndices, List.filterMap_cons, threadRecord_kind]

theorem threadDefIndices_threadRecord (i p t : Nat) :
    threadDefIndices [threadRecord i p t] = [i] := by
  simp [threadDefIndices, List.filterMap_cons, threadRecord_kind]

/-- A freshly interned string preserves the invariant, as long as the new
table still fits the `uint16` index space. -/
theorem Inv.goc_str {w : Writer} (hw : Inv w) (s : String) {i : Nat}
    (hok : (w.getOrCreateStringIndex s).1 = .ok i)
    (hb : (w.getOrCreateStringIndex s).2.stringTable.length ≤ 65535) :
    Inv (w.getOrCreateStringIndex s).2 := by
  cases h : w.stringTable.lookup s with
  | some j => rw [goc_str_hit h]; exact hw
  | none =>
    by_cases hlen : (strBytes s).length ≤ 255
    · rw [goc_str_miss_ok h hlen] at hb ⊢
      simp only at hb ⊢
      have hb' : w.stringTable.length + 1 ≤ 65535 := by
        simpa using hb
      have hn : w.nextStringIndex = 1 + w.stringTable.length := by
        rw [hw.next_str, Nat.mod_eq_of_lt (by omega)]
      refine ⟨?_, ?_, ?_, ?_, ?_, ?_, ?_⟩
      · show stringDefIndices (w.out ++ [stringRecord w.nextStringIndex s]) = _
        rw [stringDefIndices_append, stringDefIndices_stringRecord, hw.sync_str]
        simp
      · show threadDefIndices (w.out ++ [stringRecord w.nextStringIndex s]) = _
        rw [threadDefIndices_append, threadDefIndices_stringRecord, hw.sync_thr]
        simp
      · show w.nextStringIndex :: w.stringTable.map Prod.snd = _
        rw [hw.dense_str]
        show _ = (List.range' 1 (w.stringTable.length + 1)).reverse
        rw [List.range'_1_concat, List.reverse_append, hn]
        simp
      · exact hw.dense_thr
      · show (w.nextStringIndex + 1) % 65536 = _
        rw [hn]
        show _ = (1 + (w.stringTable.length + 1)) % 65536
        omega
      · exact hw.next_thr
      · show wellOrdered [] [] (w.out ++ [stringRecord w.nextStringIndex s]) = true
        rw [wellOrdered_append, Bool.and_eq_true]
        exact ⟨hw.ord, by simp [wellOrdered, refsOk, stringRecord]⟩
    · rw [goc_str_miss_err h (by omega)] at hok
      cases hok

/-- A freshly interned thread pair preserves the invariant, as long as the
new table still fits the `uint16` index space. -/
theorem Inv.goc_thr {w : Writer} (hw : Inv w) (p t : Nat)
    (hb : (w.getOrCreateThreadIndex p t).2.threadTable.length ≤ 65535) :
    Inv (w.getOrCreateThreadIndex p t).2 := by
  cases h : w.threadTable.lookup (p, t) with
  | some j => rw [goc_thr_hit h]; exact hw
  | none =>
    rw [goc_thr_miss h] at hb ⊢
    simp only at hb ⊢
    have hb' : w.threadTable.length + 1 ≤ 65535 := by
      simpa using hb
    have hn : w.nextThreadIndex = 1 + w.threadTable.length := by
      rw [hw.next_thr, Nat.mod_eq_of_lt (by omega)]
    refine ⟨?_, ?_, ?_, ?_, ?_, ?_, ?_⟩
    · show stringDefIndices (w.out ++ [threadRecord w.nextThreadIndex p t]) = _
      rw [stringDefIndices_append, stringDefIndices_threadRecord, hw.sync_str]
      simp
    · show threadDefIndices (w.out ++ [threadRecord w.nextThreadIndex p t]) = _
      rw [threadDefIndices_append, threadDefIndices_threadRecord, hw.sync_thr]
      simp
    · exact hw.dense_str
    · show w.nextThreadIndex :: w.threadTable.map Prod.snd = _
      rw [hw.dense_thr]
      show _ = (List.range' 1 (w.threadTable.length + 1)).reverse
      rw [List.range'_1_concat, List.reverse_append, hn]
      simp
    · exact hw.next_str
    · show (w.nextThreadIndex + 1) % 65536 = _
      rw [hn]
      show _ = (1 + (w.threadTable.length + 1)) % 65536
      omega
    · show wellOrdered [] [] (w.out ++ [threadRecord w.nextThreadIndex p t]) = true
      rw [wellOrdered_append, Bool.and_eq_true]
      exact ⟨hw.ord, by simp [wellOrdered, refsOk, threadRecord]⟩

/-! ## Size faithfulness of the record builders -/

theorem sizeFaithful_stringRecord (i : Nat) (s : String) :
    sizeFaithful (stringRecord i s) := by
  intro n hn
  have hn' : n = 1 + paddedLen (strBytes s).length / 8 := by
    have : (stringRecord i s).sizeWords = some (1 + paddedLen (strBytes s).length / 8) := rfl
    rw [this] at hn
    exact (Option.some.injEq _ _ ▸ hn).symm ▸ rfl
  have hlen : (stringRecord i s).bytes.length = 8 + paddedLen (strBytes s).length := by
    have hle := paddedLen_le (strBytes s).length
    simp [Record.bytes, stringRecord, u64LEBytes]
    omega
  rw [hn', hlen]
  have := paddedLen_div_mul (strBytes s).length
  omega

theorem sizeFaithful_threadRecord (i p t : Nat) :
    sizeFaithful (threadRecord i p t) := by
  intro n hn
  have : (threadRecord i p t).sizeWords = some 3 := rfl
  rw [this] at hn
  cases hn
  rfl

theorem sizeFaithful_providerInfoRecord (pid : Nat) (name : String) :
    sizeFaithful (providerInfoRecord pid name) := by
  intro n hn
  have hn' : n = 1 + paddedLen (strBytes name).length / 8 := by
    have : (providerInfoRecord pid name).sizeWords
        = some (1 + paddedLen (strBytes name).length / 8) := rfl
    rw [this] at hn
    exact (Option.some.injEq _ _ ▸ hn).symm ▸ rfl
  have hlen : (providerInfoRecord pid name).bytes.length
      = 8 + paddedLen (strBytes name).length := by
    have hle := paddedLen_le (strBytes name).length
    simp [Record.bytes, providerInfoRecord, u64LEBytes]
    omega
  rw [hn', hlen]
  have := paddedLen_div_mul (strBytes name).length
  omega

theorem sizeFaithful_providerSectionRecord (pid : Nat) :
    sizeFaithful (providerSectionRecord pid) := by
  intro n hn
  have : (providerSectionRecord pid).sizeWords = some 1 := rfl
  rw [this] at hn
  cases hn
  rfl

theorem sizeFaithful_providerEventRecord (pid et : Nat) :
    sizeFaithful (providerEventRecord pid et) := by
  intro n hn
  have : (providerEventRecord pid et).sizeWords = some 1 := rfl
  rw [this] at hn
  cases hn
  rfl

theorem sizeFaithful_initializationRecord (ticks : Nat) :
    sizeFaithful (initializationRecord ticks) := by
  intro n hn
  have : (initializationRecord ticks).sizeWords = some 2 := rfl
  rw [this] at hn
  cases hn
  rfl

theorem goodDefs_nil : goodDefs [] := by intro r hr; cases hr

theorem goodDefs_append {ds ds' : List Record} (h : goodDefs ds) (h' : goodDefs ds') :
    goodDefs (ds ++ ds') := by
  intro r hr
  rcases List.mem_append.1 hr with hr | hr
  · exact h r hr
  · exact h' r hr

theorem goodStrDefs_nil : goodStrDefs [] := by intro r hr; cases hr

theorem goodStrDefs_append {ds ds' : List Record} (h : goodStrDefs ds)
    (h' : goodStrDefs ds') : goodStrDefs (ds ++ ds') := by
  intro r hr
  rcases List.mem_append.1 hr with hr | hr
  · exact h r hr
  · exact h' r hr

theorem goodStrDefs.toGoodDefs {ds : List Record} (h : goodStrDefs ds) : goodDefs ds := by
  intro r hr
  obtain ⟨⟨i, s, hk⟩, hsf⟩ := h r hr
  exact ⟨by unfold isDefRecord; rw [hk], hsf⟩

theorem goodStrDefs.no_thrDef {ds : List Record} (h : goodStrDefs ds) :
    ∀ r ∈ ds, ∀ i p t, r.kind ≠ RecKind.thrDef i p t := by
  intro r hr i p t hk
  obtain ⟨⟨j, s, hk'⟩, _⟩ := h r hr
  rw [hk] at hk'
  cases hk'

theorem goc_str_delta (w : Writer) (s : String) :
    ∃ ds, (w.getOrCreateStringIndex s).2.out = w.out ++ ds ∧ goodStrDefs ds := by
  cases h : w.stringTable.lookup s with
  | some j =>
    rw [goc_str_hit h]
    exact ⟨[], by simp, goodStrDefs_nil⟩
  | none =>
    by_cases hlen : (strBytes s).length ≤ 255
    · rw [goc_str_miss_ok h hlen]
      refine ⟨[stringRecord w.nextStringIndex s], rfl, ?_⟩
      intro r hr
      rcases List.mem_singleton.1 hr with rfl
      exact ⟨⟨_, _, rfl⟩, sizeFaithful_stringRecord _ _⟩
    · rw [goc_str_miss_err h (by omega)]
      exact ⟨[], by simp, goodStrDefs_nil⟩

theorem goc_thr_delta (w : Writer) (p t : Nat) :
    ∃ ds, (w.getOrCreateThreadIndex p t).2.out = w.out ++ ds ∧ goodDefs ds := by
  cases h : w.threadTable.lookup (p, t) with
  | some j =>
    rw [goc_thr_hit h]
    exact ⟨[], by simp, goodDefs_nil⟩
  | none =>
    rw [goc_thr_miss h]
    refine ⟨[threadRecord w.nextThreadIndex p t], rfl, ?_⟩
    intro r hr
    rcases List.mem_singleton.1 hr with rfl
    exact ⟨rfl, sizeFaithful_threadRecord _ _ _⟩

/-- After a successful `getOrCreateStringIndex`, the string maps to the
returned index. -/
theorem goc_str_ok_lookup {w : Writer} {s : String} {i : Nat}
    (h : (w.getOrCreateStringIndex s).1 = .ok i) :
    (w.getOrCreateStringIndex s).2.stringTable.lookup s = some i := by
  cases hl : w.stringTable.lookup s with
  | some j =>
    rw [goc_str_hit hl] at h ⊢
    cases h
    exact hl
  | none =>
    by_cases hlen : (strBytes s).length ≤ 255
    · rw [goc_str_miss_ok hl hlen] at h ⊢
      cases h
      exact lookup_str_cons_self
    · rw [goc_str_miss_err hl (by omega)] at h
      cases h

theorem goc_thr_ok_lookup {w : Writer} {p t i : Nat}
    (h : (w.getOrCreateThreadIndex p t).1 = .ok i) :
    (w.getOrCreateThreadIndex p t).2.threadTable.lookup (p, t) = some i := by
  cases hl : w.threadTable.lookup (p, t) with
  | some j =>
    rw [goc_thr_hit hl] at h ⊢
    cases h
    exact hl
  | none =>
    rw [goc_thr_miss hl] at h ⊢
    cases h
    exact lookup_thr_cons_self

/-- Everything `addArgumentStringsToTable` guarantees on success: it only
appends definition records, both the key and a string value end up
interned, and the table invariant survives (under the `uint16` bound). -/
theorem addArgStrings_ok_spec {w : Writer} {key : String} {value : ArgValue}
    (hok : (w.addArgumentStringsToTable key value).1 = .ok ()) :
    (∃ ds, (w.addArgumentStringsToTable key value).2.out = w.out ++ ds ∧ goodStrDefs ds) ∧
    (∃ i, (w.addArgumentStringsToTable key value).2.stringTable.lookup key = some i) ∧
    (∀ v, value = .str v →
      ∃ i, (w.addArgumentStringsToTable key value).2.stringTable.lookup v = some i) ∧
    (Inv w → (w.addArgumentStringsToTable key value).2.stringTable.length ≤ 65535 →
      Inv (w.addArgumentStringsToTable key value).2) := by
  unfold Writer.addArgumentStringsToTable at hok ⊢
  rcases hk : w.getOrCreateStringIndex key with ⟨res, w₁⟩
  cases res with
  | error e => rw [hk] at hok; simp at hok
  | ok i =>
    rw [hk] at hok
    dsimp only at hok ⊢
    have hkey₁ : w₁.stringTable.lookup key = some i := by
      have := goc_str_ok_lookup (w := w) (s := key) (i := i) (by rw [hk])
      rwa [hk] at this
    have hdelta₁ : ∃ ds, w₁.out = w.out ++ ds ∧ goodStrDefs ds := by
      have := goc_str_delta w key
      rwa [hk] at this
    have hinv₁ : Inv w → w₁.stringTable.length ≤ 65535 → Inv w₁ := by
      intro hw hb
      have := hw.goc_str key (i := i) (by rw [hk]) (by rw [hk]; exact hb)
      rwa [hk] at this
    cases value
    case str v =>
      dsimp only at hok ⊢
      rcases hv : w₁.getOrCreateStringIndex v with ⟨res', w₂⟩
      cases res' with
      | error e => rw [hv] at hok; simp at hok
      | ok j =>
        rw [hv] at hok
        have hext₂ : Extends w₁ w₂ := by
          have := goc_str_extends w₁ v
          rwa [hv] at this
        have hval₂ : w₂.stringTable.lookup v = some j := by
          have := goc_str_ok_lookup (w := w₁) (s := v) (i := j) (by rw [hv])
          rwa [hv] at this
        refine ⟨?_, ⟨i, hext₂.str_lookup _ _ hkey₁⟩, ?_, ?_⟩
        · obtain ⟨ds, hds, hg⟩ := hdelta₁
          have hdelta₂ : ∃ ds', w₂.out = w₁.out ++ ds' ∧ goodStrDefs ds' := by
            have := goc_str_delta w₁ v
            rwa [hv] at this
          obtain ⟨ds', hds', hg'⟩ := hdelta₂
          exact ⟨ds ++ ds', by rw [hds', hds, List.append_assoc], goodStrDefs_append hg hg'⟩
        · intro v' hv'
          cases hv'
          exact ⟨j, hval₂⟩
        · intro hw hb
          have hb₁ : w₁.stringTable.length ≤ 65535 := le_trans hext₂.str_len hb
          have := (hinv₁ hw hb₁).goc_str v (i := j) (by rw [hv]) (by rw [hv]; exact hb)
          rwa [hv] at this
    all_goals
      dsimp only
      refine ⟨hdelta₁, ⟨i, hkey₁⟩, ?_, hinv₁⟩
      intro v h
      exact ArgValue.noConfusion h

/-- Everything the first argument pass guarantees on success: only
definition records appended, the returned word count is the sum of the
per-kind sizes, all keys and string values are interned afterwards, and the
invariant survives. -/
theorem sizeAndInternArgs_ok_spec {w : Writer} {args : List (String × ArgValue)} {n : Nat}
    (hok : (w.sizeAndInternArgs args).1 = .ok n) :
    (∃ ds, (w.sizeAndInternArgs args).2.out = w.out ++ ds ∧ goodStrDefs ds) ∧
    n = (args.map (fun kv => getArgumentSizeInWords kv.2)).sum ∧
    (∀ kv ∈ args,
      (∃ i, (w.sizeAndInternArgs args).2.stringTable.lookup kv.1 = some i) ∧
      (∀ v, kv.2 = .str v →
        ∃ i, (w.sizeAndInternArgs args).2.stringTable.lookup v = some i)) ∧
    (Inv w → (w.sizeAndInternArgs args).2.stringTable.length ≤ 65535 →
      Inv (w.sizeAndInternArgs args).2) := by
  induction args generalizing w n with
  | nil =>
    refine ⟨⟨[], by simp [Writer.sizeAndInternArgs], goodStrDefs_nil⟩, ?_, ?_, ?_⟩
    · unfold Writer.sizeAndInternArgs at hok
      simp at hok
      simp [hok]
    · intro kv hkv; cases hkv
    · intro hw _; exact hw
  | cons kv rest ih =>
    rcases kv with ⟨key, value⟩
    unfold Writer.sizeAndInternArgs at hok ⊢
    rcases hk : w.addArgumentStringsToTable key value with ⟨res, w₁⟩
    cases res with
    | error e => rw [hk] at hok; simp at hok
    | ok u =>
      rw [hk] at hok
      dsimp only at hok ⊢
      rcases hr : w₁.sizeAndInternArgs rest with ⟨res', w₂⟩
      cases res' with
      | error e => rw [hr] at hok; simp at hok
      | ok m =>
        rw [hr] at hok
        dsimp only at hok ⊢
        have hne : n = getArgumentSizeInWords value + m := by
          simp at hok
          omega
        have hspec₁ := @addArgStrings_ok_spec w key value (by rw [hk])
        rw [hk] at hspec₁
        have hspec₂ := ih (w := w₁) (n := m) (by rw [hr])
        rw [hr] at hspec₂
        obtain ⟨⟨ds₁, hds₁, hg₁⟩, hkey₁, hval₁, hinv₁⟩ := hspec₁
        obtain ⟨⟨ds₂, hds₂, hg₂⟩, hsum₂, hmem₂, hinv₂⟩ := hspec₂
        have hext₂ : Extends w₁ w₂ := by
          have := sizeAndInternArgs_extends w₁ rest
          rwa [hr] at this
        refine ⟨⟨ds₁ ++ ds₂, by rw [hds₂, hds₁, List.append_assoc], goodStrDefs_append hg₁ hg₂⟩,
          ?_, ?_, ?_⟩
        · simp [hne, hsum₂]
        · intro kv hkv
          rcases List.mem_cons.1 hkv with rfl | hkv
          · obtain ⟨i, hi⟩ := hkey₁
            refine ⟨⟨i, hext₂.str_lookup _ _ hi⟩, ?_⟩
            intro v hv
            obtain ⟨j, hj⟩ := hval₁ v hv
            exact ⟨j, hext₂.str_lookup _ _ hj⟩
          · exact hmem₂ kv hkv
        · intro hw hb
          exact hinv₂ (hinv₁ hw (le_trans hext₂.str_len hb)) hb

/-- Size/encode lock-step, per argument: a successful `writeArgument`
returns exactly `8 * k` bytes where `k` is the size the first pass computed
for the same value kind. -/
theorem writeArgument_ok_spec {w : Writer} {key : String} {value : ArgValue}
    {bs : List Nat} {k : Nat} (h : w.writeArgument key value = .ok (bs, k)) :
    bs.length = 8 * k ∧ k = getArgumentSizeInWords value := by
  unfold Writer.writeArgument at h
  cases hks : w.getStringIndex key with
  | error e => rw [hks] at h; simp at h
  | ok keyIndex =>
    rw [hks] at h
    dsimp only at h
    cases value
    case str v =>
      dsimp only at h
      cases hvs : w.getStringIndex v with
      | error e => rw [hvs] at h; simp at h
      | ok valueIndex =>
        rw [hvs] at h
        simp only [Except.ok.injEq, Prod.mk.injEq] at h
        obtain ⟨h1, h2⟩ := h
        subst h1
        subst h2
        exact ⟨rfl, rfl⟩
    all_goals
      dsimp only at h
      simp only [Except.ok.injEq, Prod.mk.injEq] at h
      obtain ⟨h1, h2⟩ := h
      subst h1
      subst h2
      exact ⟨rfl, rfl⟩

/-- Size/encode lock-step for a whole argument list: the byte count is
eight times the word count, and the word count is the sum of the sizes the
first pass computes. -/
theorem encodeArgs_ok_spec {w : Writer} {args : List (String × ArgValue)}
    {bs : List Nat} {n : Nat} (h : w.encodeArgs args = .ok (bs, n)) :
    bs.length = 8 * n ∧
      n = (args.map (fun kv => getArgumentSizeInWords kv.2)).sum := by
  induction args generalizing w bs n with
  | nil =>
    unfold Writer.encodeArgs at h
    simp only [Except.ok.injEq, Prod.mk.injEq] at h
    obtain ⟨h1, h2⟩ := h
    subst h1
    subst h2
    exact ⟨rfl, rfl⟩
  | cons kv rest ih =>
    rcases kv with ⟨key, value⟩
    unfold Writer.encodeArgs at h
    cases hwa : w.writeArgument key value with
    | error e => rw [hwa] at h; simp at h
    | ok p =>
      rcases p with ⟨bs₁, k⟩
      rw [hwa] at h
      dsimp only at h
      cases hre : w.encodeArgs rest with
      | error e => rw [hre] at h; simp at h
      | ok q =>
        rcases q with ⟨bs₂, m⟩
        rw [hre] at h
        simp only [Except.ok.injEq, Prod.mk.injEq] at h
        obtain ⟨h1, h2⟩ := h
        obtain ⟨hlen₁, hsz₁⟩ := writeArgument_ok_spec hwa
        obtain ⟨hlen₂, hsz₂⟩ := ih hre
        subst h1
        subst h2
        refine ⟨?_, ?_⟩
        · rw [List.length_append, hlen₁, hlen₂, Nat.mul_add]
        · simp [hsz₁, hsz₂]

/-- `getStringIndex` reads only the string table. -/
theorem getStringIndex_congr {w v : Writer} (h : w.stringTable = v.stringTable)
    (s : String) : w.getStringIndex s = v.getStringIndex s := by
  unfold Writer.getStringIndex
  rw [h]

/-- `writeArgument` reads only the string table. -/
theorem writeArgument_congr {w v : Writer} (h : w.stringTable = v.stringTable)
    (key : String) (value : ArgValue) :
    w.writeArgument key value = v.writeArgument key value := by
  unfold Writer.writeArgument
  simp only [getStringIndex_congr h]

/-- `encodeArgs` reads only the string table. -/
theorem encodeArgs_congr {w v : Writer} (h : w.stringTable = v.stringTable)
    (args : List (String × ArgValue)) : w.encodeArgs args = v.encodeArgs args := by
  induction args with
  | nil => rfl
  | cons kv rest ih =>
    rcases kv with ⟨key, value⟩
    unfold Writer.encodeArgs
    rw [writeArgument_congr h key value, ih]

/-- `argStrRefs` reads only the string table. -/
theorem argStrRefs_congr {w v : Writer} (h : w.stringTable = v.stringTable)
    (args : List (String × ArgValue)) : w.argStrRefs args = v.argStrRefs args := by
  unfold Writer.argStrRefs
  rw [h]

/-- Every index `argStrRefs` collects comes from a successful lookup. -/
theorem argStrRefs_mem {w : Writer} {args : List (String × ArgValue)} :
    ∀ i ∈ w.argStrRefs args, ∃ s, w.stringTable.lookup s = some i := by
  intro i hi
  unfold Writer.argStrRefs at hi
  rw [List.mem_flatMap] at hi
  obtain ⟨kv, _, hmem⟩ := hi
  rcases List.mem_append.1 hmem with h1 | h2
  · cases hl : w.stringTable.lookup kv.1 with
    | none => rw [hl] at h1; cases h1
    | some j =>
      rw [hl] at h1
      rcases List.mem_singleton.1 h1 with rfl
      exact ⟨kv.1, hl⟩
  · cases hv : kv.2 with
    | str s =>
      rw [hv] at h2
      dsimp only at h2
      cases hl : w.stringTable.lookup s with
      | none => rw [hl] at h2; cases h2
      | some j =>
        rw [hl] at h2
        rcases List.mem_singleton.1 h2 with rfl
        exact ⟨s, hl⟩
    | null => rw [hv] at h2; dsimp only at h2; cases h2
    | int32 x => rw [hv] at h2; dsimp only at h2; cases h2
    | uint32 x => rw [hv] at h2; dsimp only at h2; cases h2
    | int64 x => rw [hv] at h2; dsimp only at h2; cases h2
    | uint64 x => rw [hv] at h2; dsimp only at h2; cases h2
    | double x => rw [hv] at h2; dsimp only at h2; cases h2
    | pointer x => rw [hv] at h2; dsimp only at h2; cases h2
    | koid x => rw [hv] at h2; dsimp only at h2; cases h2
    | bool x => rw [hv] at h2; dsimp only at h2; cases h2

/-- A successful string intern is either a pure table hit or a fresh
assignment of `nextStringIndex` with one String Record appended. -/
theorem goc_str_ok_cases {w w₁ : Writer} {s : String} {i : Nat}
    (h : w.getOrCreateStringIndex s = (.ok i, w₁)) :
    (w.stringTable.lookup s = some i ∧ w₁ = w) ∨
    (w.stringTable.lookup s = none ∧ i = w.nextStringIndex ∧
     w₁ = { stringTable := (s, i) :: w.stringTable,
            nextStringIndex := (i + 1) % 65536,
            threadTable := w.threadTable, nextThreadIndex := w.nextThreadIndex,
            out := w.out ++ [stringRecord i s] }) := by
  cases hl : w.stringTable.lookup s with
  | some j =>
    rw [goc_str_hit hl] at h
    simp only [Prod.mk.injEq, Except.ok.injEq] at h
    obtain ⟨rfl, rfl⟩ := h
    exact Or.inl ⟨rfl, rfl⟩
  | none =>
    by_cases hlen : (strBytes s).length ≤ 255
    · rw [goc_str_miss_ok hl hlen] at h
      simp only [Prod.mk.injEq, Except.ok.injEq] at h
      obtain ⟨rfl, rfl⟩ := h
      exact Or.inr ⟨rfl, rfl, rfl⟩
    · rw [goc_str_miss_err hl (by omega)] at h
      simp at h

/-- A successful thread-pair intern is either a table hit or a fresh
assignment of `nextThreadIndex` with one Thread Record appended. -/
theorem goc_thr_ok_cases {w w₁ : Writer} {p t i : Nat}
    (h : w.getOrCreateThreadIndex p t = (.ok i, w₁)) :
    (w.threadTable.lookup (p, t) = some i ∧ w₁ = w) ∨
    (w.threadTable.lookup (p, t) = none ∧ i = w.nextThreadIndex ∧
     w₁ = { stringTable := w.stringTable, nextStringIndex := w.nextStringIndex,
            threadTable := ((p, t), i) :: w.threadTable,
            nextThreadIndex := (i + 1) % 65536,
            out := w.out ++ [threadRecord i p t] }) := by
  cases hl : w.threadTable.lookup (p, t) with
  | some j =>
    rw [goc_thr_hit hl] at h
    simp only [Prod.mk.injEq, Except.ok.injEq] at h
    obtain ⟨rfl, rfl⟩ := h
    exact Or.inl ⟨rfl, rfl⟩
  | none =>
    rw [goc_thr_miss hl] at h
    simp only [Prod.mk.injEq, Except.ok.injEq] at h
    obtain ⟨rfl, rfl⟩ := h
    exact Or.inr ⟨rfl, rfl, rfl⟩

/-- String interning never touches the thread table. -/
theorem goc_str_thr_unchanged (w : Writer) (s : String) :
    (w.getOrCreateStringIndex s).2.threadTable = w.threadTable ∧
    (w.getOrCreateStringIndex s).2.nextThreadIndex = w.nextThreadIndex := by
  cases h : w.stringTable.lookup s with
  | some i => rw [goc_str_hit h]; exact ⟨rfl, rfl⟩
  | none =>
    by_cases hlen : (strBytes s).length ≤ 255
    · rw [goc_str_miss_ok h hlen]; exact ⟨rfl, rfl⟩
    · rw [goc_str_miss_err h (by omega)]; exact ⟨rfl, rfl⟩

/-- Thread interning never touches the string table. -/
theorem goc_thr_str_unchanged (w : Writer) (p t : Nat) :
    (w.getOrCreateThreadIndex p t).2.stringTable = w.stringTable ∧
    (w.getOrCreateThreadIndex p t).2.nextStringIndex = w.nextStringIndex := by
  cases h : w.threadTable.lookup (p, t) with
  | some i => rw [goc_thr_hit h]; exact ⟨rfl, rfl⟩
  | none => rw [goc_thr_miss h]; exact ⟨rfl, rfl⟩

theorem addArgStrings_thr_unchanged (w : Writer) (key : String) (value : ArgValue) :
    (w.addArgumentStringsToTable key value).2.threadTable = w.threadTable ∧
    (w.addArgumentStringsToTable key value).2.nextThreadIndex = w.nextThreadIndex := by
  unfold Writer.addArgumentStringsToTable
  rcases hk : w.getOrCreateStringIndex key with ⟨res, w₁⟩
  have h₁ : w₁.threadTable = w.threadTable ∧ w₁.nextThreadIndex = w.nextThreadIndex := by
    have := goc_str_thr_unchanged w key
    rwa [hk] at this
  cases res with
  | error e => exact h₁
  | ok i =>
    cases value
    case str v =>
      dsimp only
      rcases hv : w₁.getOrCreateStringIndex v with ⟨res', w₂⟩
      have h₂ : w₂.threadTable = w₁.threadTable ∧ w₂.nextThreadIndex = w₁.nextThreadIndex := by
        have := goc_str_thr_unchanged w₁ v
        rwa [hv] at this
      cases res' with
      | error e => exact ⟨h₂.1.trans h₁.1, h₂.2.trans h₁.2⟩
      | ok j => exact ⟨h₂.1.trans h₁.1, h₂.2.trans h₁.2⟩
    all_goals exact h₁

theorem sizeAndInternArgs_thr_unchanged (w : Writer) (args : List (String × ArgValue)) :
    (w.sizeAndInternArgs args).2.threadTable = w.threadTable ∧
    (w.sizeAndInternArgs args).2.nextThreadIndex = w.nextThreadIndex := by
  induction args generalizing w with
  | nil => exact ⟨rfl, rfl⟩
  | cons kv rest ih =>
    rcases kv with ⟨key, value⟩
    unfold Writer.sizeAndInternArgs
    rcases hk : w.addArgumentStringsToTable key value with ⟨res, w₁⟩
    have h₁ : w₁.threadTable = w.threadTable ∧ w₁.nextThreadIndex = w.nextThreadIndex := by
      have := addArgStrings_thr_unchanged w key value
      rwa [hk] at this
    cases res with
    | error e => exact h₁
    | ok u =>
      dsimp only
      rcases hr : w₁.sizeAndInternArgs rest with ⟨res', w₂⟩
      have h₂ : w₂.threadTable = w₁.threadTable ∧ w₂.nextThreadIndex = w₁.nextThreadIndex := by
        have := ih w₁
        rwa [hr] at this
      cases res' with
      | ok n => exact ⟨h₂.1.trans h₁.1, h₂.2.trans h₁.2⟩
      | error e => exact ⟨h₂.1.trans h₁.1, h₂.2.trans h₁.2⟩

/-- Everything a successful `writeEventHeaderAndGenericData` call
guarantees: the stream grows by a block of definition records followed by
exactly one event record whose header embeds the interned category, name
and thread indices; definitions are emitted only for newly seen keys; the
two argument passes agree; and the interning invariant survives. -/
theorem writeEvent_ok_spec {w w' : Writer} {et : Nat} {category name : String}
    {processId threadId timestamp : Nat} {arguments : List (String × ArgValue)}
    {extra : Nat} {trailing : List Nat}
    (h : w.writeEventHeaderAndGenericData et category name processId threadId
      timestamp arguments extra trailing = (.ok (), w')) :
    ∃ ds ci ni ti asz argBytes,
      w'.out = w.out ++ ds ++ [eventRecord et ci ni ti arguments.length
        (1 + 1 + asz + extra) timestamp argBytes trailing (w'.argStrRefs arguments)] ∧
      goodDefs ds ∧
      asz = (arguments.map (fun kv => getArgumentSizeInWords kv.2)).sum ∧
      argBytes.length = 8 * asz ∧
      w'.encodeArgs arguments = .ok (argBytes, asz) ∧
      w'.stringTable.lookup category = some ci ∧
      w'.stringTable.lookup name = some ni ∧
      w'.threadTable.lookup (processId, threadId) = some ti ∧
      (∀ kv ∈ arguments,
        (∃ i, w'.stringTable.lookup kv.1 = some i) ∧
        (∀ v, kv.2 = .str v → ∃ i, w'.stringTable.lookup v = some i)) ∧
      (w.stringTable.lookup category = none →
        ∃ r ∈ ds, r.kind = .strDef ci category) ∧
      (w.stringTable.lookup name = none → ∃ r ∈ ds, r.kind = .strDef ni name) ∧
      (w.threadTable.lookup (processId, threadId) = none →
        ∃ r ∈ ds, r.kind = .thrDef ti processId threadId) ∧
      (∀ j, w.threadTable.lookup (processId, threadId) = some j →
        ti = j ∧ ∀ r ∈ ds, ∀ i pp tt, r.kind ≠ RecKind.thrDef i pp tt) ∧
      (Inv w → w'.stringTable.length ≤ 65535 → w'.threadTable.length ≤ 65535 → Inv w') := by
  unfold Writer.writeEventHeaderAndGenericData at h
  rcases h₁ : w.getOrCreateStringIndex category with ⟨res₁, w₁⟩
  rw [h₁] at h
  cases res₁ with
  | error e => simp at h
  | ok ci =>
  dsimp only at h
  rcases h₂ : w₁.getOrCreateStringIndex name with ⟨res₂, w₂⟩
  rw [h₂] at h
  cases res₂ with
  | error e => simp at h
  | ok ni =>
  dsimp only at h
  rcases h₃ : w₂.getOrCreateThreadIndex processId threadId with ⟨res₃, w₃⟩
  rw [h₃] at h
  cases res₃ with
  | error e => simp at h
  | ok ti =>
  dsimp only at h
  rcases h₄ : w₃.sizeAndInternArgs arguments with ⟨res₄, w₄⟩
  rw [h₄] at h
  cases res₄ with
  | error e => simp at h
  | ok asz =>
  dsimp only at h
  rcases h₅ : w₄.encodeArgs arguments with e₅ | p₅
  · rw [h₅] at h; simp at h
  rcases p₅ with ⟨argBytes, wordsWritten⟩
  rw [h₅] at h
  dsimp only at h
  by_cases heq : wordsWritten = asz
  case neg => rw [if_neg heq] at h; simp at h
  rw [if_pos heq] at h
  simp only [Prod.mk.injEq] at h
  replace h := h.2
  rw [heq] at h₅
  -- Extends relations along the chain
  have hE₂ : Extends w₁ w₂ := by
    have := goc_str_extends w₁ name; rwa [h₂] at this
  have hE₃ : Extends w₂ w₃ := by
    have := goc_thr_extends w₂ processId threadId; rwa [h₃] at this
  have hE₄ : Extends w₃ w₄ := by
    have := sizeAndInternArgs_extends w₃ arguments; rwa [h₄] at this
  -- string-table facts
  have hcat₁ : w₁.stringTable.lookup category = some ci := by
    have := goc_str_ok_lookup (w := w) (s := category) (i := ci) (by rw [h₁])
    rwa [h₁] at this
  have hcat₄ : w₄.stringTable.lookup category = some ci :=
    hE₄.str_lookup _ _ (hE₃.str_lookup _ _ (hE₂.str_lookup _ _ hcat₁))
  have hname₂ : w₂.stringTable.lookup name = some ni := by
    have := goc_str_ok_lookup (w := w₁) (s := name) (i := ni) (by rw [h₂])
    rwa [h₂] at this
  have hname₄ : w₄.stringTable.lookup name = some ni :=
    hE₄.str_lookup _ _ (hE₃.str_lookup _ _ hname₂)
  have hthr₃ : w₃.threadTable.lookup (processId, threadId) = some ti := by
    have := goc_thr_ok_lookup (w := w₂) (p := processId) (t := threadId) (i := ti)
      (by rw [h₃])
    rwa [h₃] at this
  have hthr₄ : w₄.threadTable.lookup (processId, threadId) = some ti :=
    hE₄.thr_lookup _ _ hthr₃
  -- thread tables untouched by the string interning steps
  have hTT₁ : w₁.threadTable = w.threadTable := by
    have := goc_str_thr_unchanged w category; rw [h₁] at this; exact this.1
  have hTT₂ : w₂.threadTable = w.threadTable := by
    have := goc_str_thr_unchanged w₁ name; rw [h₂] at this; exact this.1.trans hTT₁
  -- argument-pass facts
  have hspec₄ := @sizeAndInternArgs_ok_spec w₃ arguments asz (by rw [h₄])
  rw [h₄] at hspec₄
  obtain ⟨⟨ds₄, hds₄, hg₄⟩, hsum, hmem₄, hinv₄⟩ := hspec₄
  obtain ⟨hlenB, _⟩ := encodeArgs_ok_spec h₅
  -- the final writer
  have hw' : w' = w₄.writeRec (eventRecord et ci ni ti arguments.length
      (1 + 1 + asz + extra) timestamp argBytes trailing (w₄.argStrRefs arguments)) :=
    h.symm
  have hstrW : w'.stringTable = w₄.stringTable := by rw [hw']; rfl
  have hthrW : w'.threadTable = w₄.threadTable := by rw [hw']; rfl
  -- deltas of the two string interns and the thread intern
  have pack₁ : ∃ ds₁, w₁.out = w.out ++ ds₁ ∧ goodStrDefs ds₁ ∧
      ((w.stringTable.lookup category = some ci ∧ ds₁ = [] ∧ w₁ = w) ∨
       (w.stringTable.lookup category = none ∧ ds₁ = [stringRecord ci category] ∧
        w₁.stringTable = (category, ci) :: w.stringTable)) := by
    rcases goc_str_ok_cases h₁ with ⟨hl, rfl⟩ | ⟨hl, hi, hww⟩
    · exact ⟨[], by simp, goodStrDefs_nil, Or.inl ⟨hl, rfl, rfl⟩⟩
    · subst hww
      refine ⟨[stringRecord ci category], rfl, ?_, Or.inr ⟨hl, rfl, rfl⟩⟩
      intro r hr
      rcases List.mem_singleton.1 hr with rfl
      exact ⟨⟨_, _, rfl⟩, sizeFaithful_stringRecord _ _⟩
  have pack₂ : ∃ ds₂, w₂.out = w₁.out ++ ds₂ ∧ goodStrDefs ds₂ ∧
      ((w₁.stringTable.lookup name = some ni ∧ ds₂ = [] ∧ w₂ = w₁) ∨
       (w₁.stringTable.lookup name = none ∧ ds₂ = [stringRecord ni name] ∧
        w₂.stringTable = (name, ni) :: w₁.stringTable)) := by
    rcases goc_str_ok_cases h₂ with ⟨hl, rfl⟩ | ⟨hl, hi, hww⟩
    · exact ⟨[], by simp, goodStrDefs_nil, Or.inl ⟨hl, rfl, rfl⟩⟩
    · subst hww
      refine ⟨[stringRecord ni name], rfl, ?_, Or.inr ⟨hl, rfl, rfl⟩⟩
      intro r hr
      rcases List.mem_singleton.1 hr with rfl
      exact ⟨⟨_, _, rfl⟩, sizeFaithful_stringRecord _ _⟩
  have pack₃ : ∃ ds₃, w₃.out = w₂.out ++ ds₃ ∧ goodDefs ds₃ ∧
      ((w₂.threadTable.lookup (processId, threadId) = some ti ∧ ds₃ = []) ∨
       (w₂.threadTable.lookup (processId, threadId) = none ∧
        ds₃ = [threadRecord ti processId threadId])) := by
    rcases goc_thr_ok_cases h₃ with ⟨hl, rfl⟩ | ⟨hl, hi, hww⟩
    · exact ⟨[], by simp, goodDefs_nil, Or.inl ⟨hl, rfl⟩⟩
    · subst hww
      refine ⟨[threadRecord ti processId threadId], rfl, ?_, Or.inr ⟨hl, rfl⟩⟩
      intro r hr
      rcases List.mem_singleton.1 hr with rfl
      exact ⟨rfl, sizeFaithful_threadRecord _ _ _⟩
  obtain ⟨ds₁, hds₁, hg₁, hdis₁⟩ := pack₁
  obtain ⟨ds₂, hds₂, hg₂, hdis₂⟩ := pack₂
  obtain ⟨ds₃, hds₃, hg₃, hdis₃⟩ := pack₃
  refine ⟨ds₁ ++ ds₂ ++ ds₃ ++ ds₄, ci, ni, ti, asz, argBytes,
    ?_, ?_, hsum, hlenB, ?_, ?_, ?_, ?_, ?_, ?_, ?_, ?_, ?_, ?_⟩
  · -- the stream decomposition
    rw [argStrRefs_congr hstrW arguments, hw']
    show w₄.out ++ _ = _
    rw [hds₄, hds₃, hds₂, hds₁]
    simp [List.append_assoc]
  · -- all interleaved records are faithful definition records
    exact goodDefs_append (goodDefs_append (goodDefs_append hg₁.toGoodDefs
      hg₂.toGoodDefs) hg₃) hg₄.toGoodDefs
  · -- the second pass at the final table gives the same bytes
    rw [encodeArgs_congr hstrW arguments]
    exact h₅
  · rw [hstrW]; exact hcat₄
  · rw [hstrW]; exact hname₄
  · rw [hthrW]; exact hthr₄
  · -- all argument keys/string values are interned afterwards
    intro kv hkv
    obtain ⟨⟨i, hi⟩, hv⟩ := hmem₄ kv hkv
    refine ⟨⟨i, by rw [hstrW]; exact hi⟩, ?_⟩
    intro v hvv
    obtain ⟨j, hj⟩ := hv v hvv
    exact ⟨j, by rw [hstrW]; exact hj⟩
  · -- a String Record for a newly seen category
    intro hn
    rcases hdis₁ with ⟨hsome, _, _⟩ | ⟨_, hds, _⟩
    · rw [hn] at hsome; cases hsome
    · exact ⟨stringRecord ci category, by simp [hds], rfl⟩
  · -- a String Record for a newly seen name
    intro hn
    rcases hdis₂ with ⟨hsome, _, _⟩ | ⟨_, hds, _⟩
    · rcases hdis₁ with ⟨_, _, hww⟩ | ⟨_, hds, htbl⟩
      · rw [hww, hn] at hsome; cases hsome
      · rw [htbl] at hsome
        by_cases hcn : category = name
        · subst hcn
          rw [lookup_str_cons_self] at hsome
          cases hsome
          exact ⟨stringRecord ci category, by simp [hds], rfl⟩
        · rw [lookup_str_cons_of_ne hcn, hn] at hsome; cases hsome
    · exact ⟨stringRecord ni name, by simp [hds], rfl⟩
  · -- a Thread Record for a newly seen thread pair
    intro hn
    rcases hdis₃ with ⟨hsome, _⟩ | ⟨_, hds⟩
    · rw [hTT₂, hn] at hsome; cases hsome
    · exact ⟨threadRecord ti processId threadId, by simp [hds], rfl⟩
  · -- a previously seen thread pair: its index is reused, no new Thread Record
    intro j hj
    rcases hdis₃ with ⟨hsome, hds⟩ | ⟨hnone, _⟩
    · rw [hTT₂, hj] at hsome
      cases hsome
      refine ⟨rfl, ?_⟩
      intro r hr i pp tt hk
      rcases List.mem_append.1 hr with hr | hr₄
      · rcases List.mem_append.1 hr with hr | hr₃
        · rcases List.mem_append.1 hr with hr₁ | hr₂
          · exact hg₁.no_thrDef r hr₁ i pp tt hk
          · exact hg₂.no_thrDef r hr₂ i pp tt hk
        · rw [hds] at hr₃; cases hr₃
      · exact hg₄.no_thrDef r hr₄ i pp tt hk
    · rw [hTT₂, hj] at hnone; cases hnone
  · -- the invariant survives
    intro hw hbs hbt
    rw [hstrW] at hbs
    rw [hthrW] at hbt
    have hbs₃ : w₃.stringTable.length ≤ 65535 := le_trans hE₄.str_len hbs
    have hbs₂ : w₂.stringTable.length ≤ 65535 := le_trans hE₃.str_len hbs₃
    have hbs₁ : w₁.stringTable.length ≤ 65535 := le_trans hE₂.str_len hbs₂
    have hbt₃ : w₃.threadTable.length ≤ 65535 := le_trans hE₄.thr_len hbt
    have hI₁ : Inv w₁ := by
      have := hw.goc_str category (i := ci) (by rw [h₁]) (by rw [h₁]; exact hbs₁)
      rwa [h₁] at this
    have hI₂ : Inv w₂ := by
      have := hI₁.goc_str name (i := ni) (by rw [h₂]) (by rw [h₂]; exact hbs₂)
      rwa [h₂] at this
    have hI₃ : Inv w₃ := by
      have := hI₂.goc_thr processId threadId (by rw [h₃]; exact hbt₃)
      rwa [h₃] at this
    have hI₄ : Inv w₄ := hinv₄ hI₃ hbs
    rw [hw']
    refine hI₄.writeRec rfl ?_ ?_
    · intro i hi
      rcases List.mem_append.1 hi with hh | ha
      · rcases List.mem_cons.1 hh with rfl | hh
        · exact ⟨category, hcat₄⟩
        · rcases List.mem_singleton.1 hh with rfl
          exact ⟨name, hname₄⟩
      · exact argStrRefs_mem i ha
    · intro i hi
      have : some ti = some i := hi
      cases this
      exact ⟨(processId, threadId), hthr₄⟩

/-- When every argument key (and string value) is already interned, the
first pass is a pure read: it returns the summed sizes and leaves the
writer untouched. -/
theorem sizeAndInternArgs_of_interned {w : Writer} {args : List (String × ArgValue)}
    (h : ∀ kv ∈ args, (∃ i, w.stringTable.lookup kv.1 = some i) ∧
        (∀ v, kv.2 = .str v → ∃ i, w.stringTable.lookup v = some i)) :
    w.sizeAndInternArgs args =
      (.ok ((args.map (fun kv => getArgumentSizeInWords kv.2)).sum), w) := by
  induction args with
  | nil => simp [Writer.sizeAndInternArgs]
  | cons kv rest ih =>
    rcases kv with ⟨key, value⟩
    obtain ⟨⟨i, hi⟩, hv⟩ := h _ (List.mem_cons_self _ _)
    have hrest := ih (fun kv hkv => h kv (List.mem_cons_of_mem _ hkv))
    unfold Writer.sizeAndInternArgs
    have haas : w.addArgumentStringsToTable key value = (.ok (), w) := by
      unfold Writer.addArgumentStringsToTable
      rw [goc_str_hit hi]
      cases value
      case str v =>
        obtain ⟨j, hj⟩ := hv v rfl
        dsimp only
        rw [goc_str_hit hj]
      all_goals rfl
    rw [haas]
    dsimp only
    rw [hrest]
    simp

/-- When category, name, thread pair and all argument strings are already
interned, an event call is fully determined by the tables: it appends
exactly one event record and changes nothing else. -/
theorem writeEvent_of_stable {w : Writer} {et : Nat} {category name : String}
    {processId threadId timestamp : Nat} {arguments : List (String × ArgValue)}
    {extra : Nat} {trailing : List Nat} {ci ni ti asz : Nat} {argBytes : List Nat}
    (hci : w.stringTable.lookup category = some ci)
    (hni : w.stringTable.lookup name = some ni)
    (hti : w.threadTable.lookup (processId, threadId) = some ti)
    (hargs : ∀ kv ∈ arguments, (∃ i, w.stringTable.lookup kv.1 = some i) ∧
        (∀ v, kv.2 = .str v → ∃ i, w.stringTable.lookup v = some i))
    (henc : w.encodeArgs arguments = .ok (argBytes, asz))
    (hasz : asz = (arguments.map (fun kv => getArgumentSizeInWords kv.2)).sum) :
    w.writeEventHeaderAndGenericData et category name processId threadId timestamp
        arguments extra trailing =
      (.ok (), w.writeRec (eventRecord et ci ni ti arguments.length
        (1 + 1 + asz + extra) timestamp argBytes trailing (w.argStrRefs arguments))) := by
  unfold Writer.writeEventHeaderAndGenericData
  rw [goc_str_hit hci]
  dsimp only
  rw [goc_str_hit hni]
  dsimp only
  rw [goc_thr_hit hti]
  dsimp only
  rw [sizeAndInternArgs_of_interned hargs]
  dsimp only
  rw [henc]
  dsimp only
  rw [if_pos hasz, ← hasz]

theorem goodDefs.toGoodRecs {ds : List Record} (h : goodDefs ds) : goodRecs ds :=
  fun r hr => (h r hr).2

theorem goodRecs_append {ds ds' : List Record} (h : goodRecs ds) (h' : goodRecs ds') :
    goodRecs (ds ++ ds') := by
  intro r hr
  rcases List.mem_append.1 hr with hr | hr
  · exact h r hr
  · exact h' r hr

theorem goodRecs_single {r : Record} (h : sizeFaithful r) : goodRecs [r] := by
  intro r' hr'
  rcases List.mem_singleton.1 hr' with rfl
  exact h

/-- The event record is size-faithful whenever the trailing fixed fields
match their declared word count. -/
theorem sizeFaithful_eventRecord {et ci ni ti na asz ts : Nat} {argBytes trailing : List Nat}
    {refs : List Nat} {extra : Nat}
    (hargs : argBytes.length = 8 * asz) (htr : trailing.length = 8 * extra) :
    sizeFaithful (eventRecord et ci ni ti na (1 + 1 + asz + extra) ts argBytes trailing refs) := by
  intro n hn
  have : (eventRecord et ci ni ti na (1 + 1 + asz + extra) ts argBytes trailing refs).sizeWords
      = some (1 + 1 + asz + extra) := rfl
  rw [this] at hn
  cases hn
  show (1 + 1 + asz + extra) * 8 = (u64LEBytes _ ++ (u64LEBytes ts ++ argBytes ++ trailing)).length
  simp [u64LEBytes, hargs, htr]
  omega

/-! ## Per-operation specifications -/

theorem writeEvent_extends (w : Writer) (et : Nat) (category name : String)
    (processId threadId timestamp : Nat) (arguments : List (String × ArgValue))
    (extra : Nat) (trailing : List Nat) :
    Extends w (w.writeEventHeaderAndGenericData et category name processId threadId
      timestamp arguments extra trailing).2 := by
  unfold Writer.writeEventHeaderAndGenericData
  rcases h₁ : w.getOrCreateStringIndex category with ⟨res₁, w₁⟩
  have hE₁ : Extends w w₁ := by
    have := goc_str_extends w category; rwa [h₁] at this
  cases res₁ with
  | error e => exact hE₁
  | ok ci =>
  dsimp only
  rcases h₂ : w₁.getOrCreateStringIndex name with ⟨res₂, w₂⟩
  have hE₂ : Extends w w₂ := by
    have := goc_str_extends w₁ name; rw [h₂] at this; exact hE₁.trans this
  cases res₂ with
  | error e => exact hE₂
  | ok ni =>
  dsimp only
  rcases h₃ : w₂.getOrCreateThreadIndex processId threadId with ⟨res₃, w₃⟩
  have hE₃ : Extends w w₃ := by
    have := goc_thr_extends w₂ processId threadId; rw [h₃] at this; exact hE₂.trans this
  cases res₃ with
  | error e => exact hE₃
  | ok ti =>
  dsimp only
  rcases h₄ : w₃.sizeAndInternArgs arguments with ⟨res₄, w₄⟩
  have hE₄ : Extends w w₄ := by
    have := sizeAndInternArgs_extends w₃ arguments; rw [h₄] at this; exact hE₃.trans this
  cases res₄ with
  | error e => exact hE₄
  | ok asz =>
  dsimp only
  rcases h₅ : w₄.encodeArgs arguments with e₅ | p₅
  · exact hE₄
  rcases p₅ with ⟨argBytes, wordsWritten⟩
  dsimp only
  by_cases heq : wordsWritten = asz
  · rw [if_pos heq]
    exact hE₄.trans (extends_writeRec _ _)
  · rw [if_neg heq]
    exact hE₄.trans (extends_writeRec _ _)

/-- The facts a successful event call contributes to the per-operation
specification: an all-faithful appended block, and invariant preservation. -/
theorem writeEvent_op_spec {w w' : Writer} {et : Nat} {category name : String}
    {processId threadId timestamp : Nat} {arguments : List (String × ArgValue)}
    {extra : Nat} {trailing : List Nat}
    (h : w.writeEventHeaderAndGenericData et category name processId threadId
      timestamp arguments extra trailing = (.ok (), w'))
    (htr : trailing.length = 8 * extra) :
    (∃ ds, w'.out = w.out ++ ds ∧ goodRecs ds) ∧
    (Inv w → w'.stringTable.length ≤ 65535 → w'.threadTable.length ≤ 65535 → Inv w') := by
  obtain ⟨ds, ci, ni, ti, asz, argBytes, hout, hgood, hsum, hlen, henc,
    hci, hni, hti, hmem, hnc, hnn, hnt, hht, hinv⟩ := writeEvent_ok_spec h
  refine ⟨⟨ds ++ [eventRecord et ci ni ti arguments.length (1 + 1 + asz + extra)
    timestamp argBytes trailing (w'.argStrRefs arguments)],
    by rw [hout, List.append_assoc], ?_⟩, hinv⟩
  exact goodRecs_append hgood.toGoodRecs
    (goodRecs_single (sizeFaithful_eventRecord hlen htr))

/-- Appending a record with no table references preserves the invariant. -/
theorem Inv.writeRec_plain {w : Writer} (hw : Inv w) {r : Record}
    (hdef : isDefRecord r = false) (h1 : r.strRefs = []) (h2 : r.thrRef = none) :
    Inv (w.writeRec r) :=
  hw.writeRec hdef (by rw [h1]; intro i hi; cases hi)
    (by rw [h2]; intro i hi; cases hi)

theorem sizeFaithful_processNameRecord (ni pid : Nat) :
    sizeFaithful (processNameRecord ni pid) := by
  intro n hn
  cases hn
  rfl

theorem sizeFaithful_threadNameRecord (ni pi pid tid : Nat) :
    sizeFaithful (threadNameRecord ni pi pid tid) := by
  intro n hn
  cases hn
  rfl

theorem sizeFaithful_blobRecord (ni : Nat) (data : List Nat) (bt : Nat) :
    sizeFaithful (blobRecord ni data bt) := by
  intro n hn
  have : (blobRecord ni data bt).sizeWords = some (1 + paddedLen data.length / 8) := rfl
  rw [this] at hn
  cases hn
  have hle := paddedLen_le data.length
  have hdm := paddedLen_div_mul data.length
  show (1 + paddedLen data.length / 8) * 8
      = (u64LEBytes _ ++ (data ++ List.replicate (paddedLen data.length - data.length) 0)).length
  simp [u64LEBytes]
  omega

theorem sizeFaithful_userspaceObjectRecord {ni na sw ptr pid : Nat} {argBytes argRefs : List Nat}
    {asz : Nat} (hsw : sw = 1 + 1 + 1 + asz) (hlen : argBytes.length = 8 * asz) :
    sizeFaithful (userspaceObjectRecord ni na sw ptr pid argBytes argRefs) := by
  intro n hn
  cases hn
  show sw * 8 = (u64LEBytes _ ++ (u64LEBytes ptr ++ u64LEBytes pid ++ argBytes)).length
  simp [u64LEBytes, hlen, hsw]
  omega

theorem sizeFaithful_contextSwitchRecord {cpu st na sw ts ot it : Nat}
    {argBytes argRefs : List Nat} {asz : Nat}
    (hsw : sw = 1 + 1 + 1 + 1 + asz) (hlen : argBytes.length = 8 * asz) :
    sizeFaithful (contextSwitchRecord cpu st na sw ts ot it argBytes argRefs) := by
  intro n hn
  cases hn
  show sw * 8
      = (u64LEBytes _ ++ (u64LEBytes ts ++ u64LEBytes ot ++ u64LEBytes it ++ argBytes)).length
  simp [u64LEBytes, hlen, hsw]
  omega

theorem sizeFaithful_threadWakeupRecord {cpu na sw ts wt : Nat}
    {argBytes argRefs : List Nat} {asz : Nat}
    (hsw : sw = 1 + 1 + 1 + asz) (hlen : argBytes.length = 8 * asz) :
    sizeFaithful (threadWakeupRecord cpu na sw ts wt argBytes argRefs) := by
  intro n hn
  cases hn
  show sw * 8 = (u64LEBytes _ ++ (u64LEBytes ts ++ u64LEBytes wt ++ argBytes)).length
  simp [u64LEBytes, hlen, hsw]
  omega

theorem addProviderInfoRecord_ok_spec {w w' : Writer} {pid : Nat} {pn : String}
    (h : w.addProviderInfoRecord pid pn = (.ok (), w')) : OpSpec w w' := by
  unfold Writer.addProviderInfoRecord at h
  by_cases hlen : 255 < (strBytes pn).length
  · rw [if_pos hlen] at h; simp at h
  · rw [if_neg hlen] at h
    simp only [Prod.mk.injEq] at h
    replace h := h.2
    subst h
    refine ⟨⟨[providerInfoRecord pid pn], rfl,
      goodRecs_single (sizeFaithful_providerInfoRecord _ _)⟩, ?_⟩
    intro hw _ _
    exact hw.writeRec_plain rfl rfl rfl

theorem addProviderSectionRecord_spec {w w' : Writer} {pid : Nat}
    (h : w.addProviderSectionRecord pid = (.ok (), w')) : OpSpec w w' := by
  unfold Writer.addProviderSectionRecord at h
  simp only [Prod.mk.injEq] at h
  replace h := h.2
  subst h
  refine ⟨⟨[providerSectionRecord pid], rfl,
    goodRecs_single (sizeFaithful_providerSectionRecord _)⟩, ?_⟩
  intro hw _ _
  exact hw.writeRec_plain rfl rfl rfl

theorem addProviderEventRecord_spec {w w' : Writer} {pid et : Nat}
    (h : w.addProviderEventRecord pid et = (.ok (), w')) : OpSpec w w' := by
  unfold Writer.addProviderEventRecord at h
  simp only [Prod.mk.injEq] at h
  replace h := h.2
  subst h
  refine ⟨⟨[providerEventRecord pid et], rfl,
    goodRecs_single (sizeFaithful_providerEventRecord _ _)⟩, ?_⟩
  intro hw _ _
  exact hw.writeRec_plain rfl rfl rfl

theorem addInitializationRecord_spec {w w' : Writer} {ticks : Nat}
    (h : w.addInitializationRecord ticks = (.ok (), w')) : OpSpec w w' := by
  unfold Writer.addInitializationRecord at h
  simp only [Prod.mk.injEq] at h
  replace h := h.2
  subst h
  refine ⟨⟨[initializationRecord ticks], rfl,
    goodRecs_single (sizeFaithful_initializationRecord _)⟩, ?_⟩
  intro hw _ _
  exact hw.writeRec_plain rfl rfl rfl

theorem setProcessName_ok_spec {w w' : Writer} {pid : Nat} {name : String}
    (h : w.setProcessName pid name = (.ok (), w')) : OpSpec w w' := by
  unfold Writer.setProcessName at h
  rcases h₁ : w.getOrCreateStringIndex name with ⟨res₁, w₁⟩
  rw [h₁] at h
  cases res₁ with
  | error e => simp at h
  | ok ni =>
  dsimp only at h
  simp only [Prod.mk.injEq] at h
  replace h := h.2
  subst h
  have hlook : w₁.stringTable.lookup name = some ni := by
    have := goc_str_ok_lookup (w := w) (s := name) (i := ni) (by rw [h₁])
    rwa [h₁] at this
  obtain ⟨ds₁, hds₁, hg₁⟩ : ∃ ds, w₁.out = w.out ++ ds ∧ goodStrDefs ds := by
    have := goc_str_delta w name
    rwa [h₁] at this
  refine ⟨⟨ds₁ ++ [processNameRecord ni pid], ?_, ?_⟩, ?_⟩
  · show w₁.out ++ _ = _
    rw [hds₁, List.append_assoc]
  · exact goodRecs_append hg₁.toGoodDefs.toGoodRecs
      (goodRecs_single (sizeFaithful_processNameRecord _ _))
  · intro hw hbs hbt
    have hI₁ : Inv w₁ := by
      have := hw.goc_str name (i := ni) (by rw [h₁]) (by rw [h₁]; exact hbs)
      rwa [h₁] at this
    refine hI₁.writeRec rfl ?_ ?_
    · intro i hi
      rcases List.mem_singleton.1 hi with rfl
      exact ⟨name, hlook⟩
    · intro i hi
      cases hi

theorem setThreadName_ok_spec {w w' : Writer} {pid tid : Nat} {name : String}
    (h : w.setThreadName pid tid name = (.ok (), w')) : OpSpec w w' := by
  unfold Writer.setThreadName at h
  rcases h₁ : w.getOrCreateStringIndex name with ⟨res₁, w₁⟩
  rw [h₁] at h
  cases res₁ with
  | error e => simp at h
  | ok ni =>
  dsimp only at h
  rcases h₂ : w₁.getOrCreateStringIndex "process" with ⟨res₂, w₂⟩
  rw [h₂] at h
  cases res₂ with
  | error e => simp at h
  | ok pi =>
  dsimp only at h
  simp only [Prod.mk.injEq] at h
  replace h := h.2
  subst h
  have hE₂ : Extends w₁ w₂ := by
    have := goc_str_extends w₁ "process"
    rwa [h₂] at this
  have hlook₁ : w₂.stringTable.lookup name = some ni := by
    have := goc_str_ok_lookup (w := w) (s := name) (i := ni) (by rw [h₁])
    rw [h₁] at this
    exact hE₂.str_lookup _ _ this
  have hlook₂ : w₂.stringTable.lookup "process" = some pi := by
    have := goc_str_ok_lookup (w := w₁) (s := "process") (i := pi) (by rw [h₂])
    rwa [h₂] at this
  obtain ⟨ds₁, hds₁, hg₁⟩ : ∃ ds, w₁.out = w.out ++ ds ∧ goodStrDefs ds := by
    have := goc_str_delta w name
    rwa [h₁] at this
  obtain ⟨ds₂, hds₂, hg₂⟩ : ∃ ds, w₂.out = w₁.out ++ ds ∧ goodStrDefs ds := by
    have := goc_str_delta w₁ "process"
    rwa [h₂] at this
  refine ⟨⟨ds₁ ++ ds₂ ++ [threadNameRecord ni pi pid tid], ?_, ?_⟩, ?_⟩
  · show w₂.out ++ _ = _
    rw [hds₂, hds₁]
    simp [List.append_assoc]
  · exact goodRecs_append (goodRecs_append hg₁.toGoodDefs.toGoodRecs
      hg₂.toGoodDefs.toGoodRecs)
      (goodRecs_single (sizeFaithful_threadNameRecord _ _ _ _))
  · intro hw hbs hbt
    have hbs₁ : w₁.stringTable.length ≤ 65535 := le_trans hE₂.str_len hbs
    have hI₁ : Inv w₁ := by
      have := hw.goc_str name (i := ni) (by rw [h₁]) (by rw [h₁]; exact hbs₁)
      rwa [h₁] at this
    have hI₂ : Inv w₂ := by
      have := hI₁.goc_str "process" (i := pi) (by rw [h₂]) (by rw [h₂]; exact hbs)
      rwa [h₂] at this
    refine hI₂.writeRec rfl ?_ ?_
    · intro i hi
      rcases List.mem_cons.1 hi with rfl | hi
      · exact ⟨name, hlook₁⟩
      · rcases List.mem_singleton.1 hi with rfl
        exact ⟨"process", hlook₂⟩
    · intro i hi
      cases hi

theorem addBlobRecord_ok_spec {w w' : Writer} {name : String} {data : List Nat}
    {bt : Nat} (h : w.addBlobRecord name data bt = (.ok (), w')) : OpSpec w w' := by
  unfold Writer.addBlobRecord at h
  rcases h₁ : w.getOrCreateStringIndex name with ⟨res₁, w₁⟩
  rw [h₁] at h
  cases res₁ with
  | error e => simp at h
  | ok ni =>
  dsimp only at h
  simp only [Prod.mk.injEq] at h
  replace h := h.2
  subst h
  have hlook : w₁.stringTable.lookup name = some ni := by
    have := goc_str_ok_lookup (w := w) (s := name) (i := ni) (by rw [h₁])
    rwa [h₁] at this
  obtain ⟨ds₁, hds₁, hg₁⟩ : ∃ ds, w₁.out = w.out ++ ds ∧ goodStrDefs ds := by
    have := goc_str_delta w name
    rwa [h₁] at this
  refine ⟨⟨ds₁ ++ [blobRecord ni data bt], ?_, ?_⟩, ?_⟩
  · show w₁.out ++ _ = _
    rw [hds₁, List.append_assoc]
  · exact goodRecs_append hg₁.toGoodDefs.toGoodRecs
      (goodRecs_single (sizeFaithful_blobRecord _ _ _))
  · intro hw hbs hbt
    have hI₁ : Inv w₁ := by
      have := hw.goc_str name (i := ni) (by rw [h₁]) (by rw [h₁]; exact hbs)
      rwa [h₁] at this
    refine hI₁.writeRec rfl ?_ ?_
    · intro i hi
      rcases List.mem_singleton.1 hi with rfl
      exact ⟨name, hlook⟩
    · intro i hi
      cases hi

theorem addUserspaceObjectRecord_ok_spec {w w' : Writer} {name : String}
    {pid ptr : Nat} {arguments : List (String × ArgValue)}
    (h : w.addUserspaceObjectRecord name pid ptr arguments = (.ok (), w')) :
    OpSpec w w' := by
  unfold Writer.addUserspaceObjectRecord at h
  rcases h₁ : w.getOrCreateStringIndex name with ⟨res₁, w₁⟩
  rw [h₁] at h
  cases res₁ with
  | error e => simp at h
  | ok ni =>
  dsimp only at h
  rcases h₂ : w₁.sizeAndInternArgs arguments with ⟨res₂, w₂⟩
  rw [h₂] at h
  cases res₂ with
  | error e => simp at h
  | ok asz =>
  dsimp only at h
  rcases h₃ : w₂.encodeArgs arguments with e₃ | p₃
  · rw [h₃] at h; simp at h
  rcases p₃ with ⟨argBytes, wordsWritten⟩
  rw [h₃] at h
  dsimp only at h
  by_cases heq : wordsWritten = asz
  case neg => rw [if_neg heq] at h; simp at h
  rw [if_pos heq] at h
  simp only [Prod.mk.injEq] at h
  replace h := h.2
  subst h
  subst heq
  have hE₂ : Extends w₁ w₂ := by
    have := sizeAndInternArgs_extends w₁ arguments
    rwa [h₂] at this
  have hlook : w₂.stringTable.lookup name = some ni := by
    have := goc_str_ok_lookup (w := w) (s := name) (i := ni) (by rw [h₁])
    rw [h₁] at this
    exact hE₂.str_lookup _ _ this
  obtain ⟨ds₁, hds₁, hg₁⟩ : ∃ ds, w₁.out = w.out ++ ds ∧ goodStrDefs ds := by
    have := goc_str_delta w name
    rwa [h₁] at this
  have hspec₂ := @sizeAndInternArgs_ok_spec w₁ arguments wordsWritten (by rw [h₂])
  rw [h₂] at hspec₂
  obtain ⟨⟨ds₂, hds₂, hg₂⟩, hsum, hmem₂, hinv₂⟩ := hspec₂
  obtain ⟨hlenB, _⟩ := encodeArgs_ok_spec h₃
  refine ⟨⟨ds₁ ++ ds₂ ++ [userspaceObjectRecord ni arguments.length
    (1 + 1 + 1 + wordsWritten) ptr pid argBytes (w₂.argStrRefs arguments)], ?_, ?_⟩, ?_⟩
  · show w₂.out ++ _ = _
    rw [hds₂, hds₁]
    simp [List.append_assoc]
  · exact goodRecs_append (goodRecs_append hg₁.toGoodDefs.toGoodRecs
      hg₂.toGoodDefs.toGoodRecs)
      (goodRecs_single (sizeFaithful_userspaceObjectRecord rfl hlenB))
  · intro hw hbs hbt
    have hbs₁ : w₁.stringTable.length ≤ 65535 := le_trans hE₂.str_len hbs
    have hI₁ : Inv w₁ := by
      have := hw.goc_str name (i := ni) (by rw [h₁]) (by rw [h₁]; exact hbs₁)
      rwa [h₁] at this
    have hI₂ : Inv w₂ := hinv₂ hI₁ hbs
    refine hI₂.writeRec rfl ?_ ?_
    · intro i hi
      rcases List.mem_cons.1 hi with rfl | hi
      · exact ⟨name, hlook⟩
      · exact argStrRefs_mem i hi
    · intro i hi
      cases hi

theorem addContextSwitchRecordWithArgs_ok_spec {w w' : Writer}
    {cpu st ot it ts : Nat} {arguments : List (String × ArgValue)}
    (h : w.addContextSwitchRecordWithArgs cpu st ot it ts arguments = (.ok (), w')) :
    OpSpec w w' := by
  unfold Writer.addContextSwitchRecordWithArgs at h
  by_cases hst : 15 < st
  · rw [if_pos hst] at h; simp at h
  rw [if_neg hst] at h
  rcases h₂ : w.sizeAndInternArgs arguments with ⟨res₂, w₂⟩
  rw [h₂] at h
  cases res₂ with
  | error e => simp at h
  | ok asz =>
  dsimp only at h
  rcases h₃ : w₂.encodeArgs arguments with e₃ | p₃
  · rw [h₃] at h; simp at h
  rcases p₃ with ⟨argBytes, wordsWritten⟩
  rw [h₃] at h
  dsimp only at h
  by_cases heq : wordsWritten = asz
  case neg => rw [if_neg heq] at h; simp at h
  rw [if_pos heq] at h
  simp only [Prod.mk.injEq] at h
  replace h := h.2
  subst h
  subst heq
  have hspec₂ := @sizeAndInternArgs_ok_spec w arguments wordsWritten (by rw [h₂])
  rw [h₂] at hspec₂
  obtain ⟨⟨ds₂, hds₂, hg₂⟩, hsum, hmem₂, hinv₂⟩ := hspec₂
  obtain ⟨hlenB, _⟩ := encodeArgs_ok_spec h₃
  refine ⟨⟨ds₂ ++ [contextSwitchRecord cpu st arguments.length
    (1 + 1 + 1 + 1 + wordsWritten) ts ot it argBytes (w₂.argStrRefs arguments)], ?_, ?_⟩, ?_⟩
  · show w₂.out ++ _ = _
    rw [hds₂, List.append_assoc]
  · exact goodRecs_append hg₂.toGoodDefs.toGoodRecs
      (goodRecs_single (sizeFaithful_contextSwitchRecord rfl hlenB))
  · intro hw hbs hbt
    have hI₂ : Inv w₂ := hinv₂ hw hbs
    refine hI₂.writeRec rfl ?_ ?_
    · intro i hi
      exact argStrRefs_mem i hi
    · intro i hi
      cases hi

theorem addThreadWakeupRecordWithArgs_ok_spec {w w' : Writer}
    {cpu wt ts : Nat} {arguments : List (String × ArgValue)}
    (h : w.addThreadWakeupRecordWithArgs cpu wt ts arguments = (.ok (), w')) :
    OpSpec w w' := by
  unfold Writer.addThreadWakeupRecordWithArgs at h
  rcases h₂ : w.sizeAndInternArgs arguments with ⟨res₂, w₂⟩
  rw [h₂] at h
  cases res₂ with
  | error e => simp at h
  | ok asz =>
  dsimp only at h
  rcases h₃ : w₂.encodeArgs arguments with e₃ | p₃
  · rw [h₃] at h; simp at h
  rcases p₃ with ⟨argBytes, wordsWritten⟩
  rw [h₃] at h
  dsimp only at h
  by_cases heq : wordsWritten = asz
  case neg => rw [if_neg heq] at h; simp at h
  rw [if_pos heq] at h
  simp only [Prod.mk.injEq] at h
  replace h := h.2
  subst h
  subst heq
  have hspec₂ := @sizeAndInternArgs_ok_spec w arguments wordsWritten (by rw [h₂])
  rw [h₂] at hspec₂
  obtain ⟨⟨ds₂, hds₂, hg₂⟩, hsum, hmem₂, hinv₂⟩ := hspec₂
  obtain ⟨hlenB, _⟩ := encodeArgs_ok_spec h₃
  refine ⟨⟨ds₂ ++ [threadWakeupRecord cpu arguments.length
    (1 + 1 + 1 + wordsWritten) ts wt argBytes (w₂.argStrRefs arguments)], ?_, ?_⟩, ?_⟩
  · show w₂.out ++ _ = _
    rw [hds₂, List.append_assoc]
  · exact goodRecs_append hg₂.toGoodDefs.toGoodRecs
      (goodRecs_single (sizeFaithful_threadWakeupRecord rfl hlenB))
  · intro hw hbs hbt
    have hI₂ : Inv w₂ := hinv₂ hw hbs
    refine hI₂.writeRec rfl ?_ ?_
    · intro i hi
      exact argStrRefs_mem i hi
    · intro i hi
      cases hi

theorem addProviderInfoRecord_extends (w : Writer) (pid : Nat) (pn : String) :
    Extends w (w.addProviderInfoRecord pid pn).2 := by
  unfold Writer.addProviderInfoRecord
  by_cases hlen : 255 < (strBytes pn).length
  · rw [if_pos hlen]; exact Extends.refl w
  · rw [if_neg hlen]; exact extends_writeRec _ _

theorem setProcessName_extends (w : Writer) (pid : Nat) (name : String) :
    Extends w (w.setProcessName pid name).2 := by
  unfold Writer.setProcessName
  rcases h₁ : w.getOrCreateStringIndex name with ⟨res₁, w₁⟩
  have hE₁ : Extends w w₁ := by
    have := goc_str_extends w name; rwa [h₁] at this
  cases res₁ with
  | error e => exact hE₁
  | ok ni => exact hE₁.trans (extends_writeRec _ _)

theorem setThreadName_extends (w : Writer) (pid tid : Nat) (name : String) :
    Extends w (w.setThreadName pid tid name).2 := by
  unfold Writer.setThreadName
  rcases h₁ : w.getOrCreateStringIndex name with ⟨res₁, w₁⟩
  have hE₁ : Extends w w₁ := by
    have := goc_str_extends w name; rwa [h₁] at this
  cases res₁ with
  | error e => exact hE₁
  | ok ni =>
  dsimp only
  rcases h₂ : w₁.getOrCreateStringIndex "process" with ⟨res₂, w₂⟩
  have hE₂ : Extends w w₂ := by
    have := goc_str_extends w₁ "process"; rw [h₂] at this; exact hE₁.trans this
  cases res₂ with
  | error e => exact hE₂
  | ok pi => exact hE₂.trans (extends_writeRec _ _)

theorem addBlobRecord_extends (w : Writer) (name : String) (data : List Nat)
    (bt : Nat) : Extends w (w.addBlobRecord name data bt).2 := by
  unfold Writer.addBlobRecord
  rcases h₁ : w.getOrCreateStringIndex name with ⟨res₁, w₁⟩
  have hE₁ : Extends w w₁ := by
    have := goc_str_extends w name; rwa [h₁] at this
  cases res₁ with
  | error e => exact hE₁
  | ok ni => exact hE₁.trans (extends_writeRec _ _)

theorem addUserspaceObjectRecord_extends (w : Writer) (name : String)
    (pid ptr : Nat) (arguments : List (String × ArgValue)) :
    Extends w (w.addUserspaceObjectRecord name pid ptr arguments).2 := by
  unfold Writer.addUserspaceObjectRecord
  rcases h₁ : w.getOrCreateStringIndex name with ⟨res₁, w₁⟩
  have hE₁ : Extends w w₁ := by
    have := goc_str_extends w name; rwa [h₁] at this
  cases res₁ with
  | error e => exact hE₁
  | ok ni =>
  dsimp only
  rcases h₂ : w₁.sizeAndInternArgs arguments with ⟨res₂, w₂⟩
  have hE₂ : Extends w w₂ := by
    have := sizeAndInternArgs_extends w₁ arguments; rw [h₂] at this; exact hE₁.trans this
  cases res₂ with
  | error e => exact hE₂
  | ok asz =>
  dsimp only
  rcases h₃ : w₂.encodeArgs arguments with e₃ | p₃
  · exact hE₂
  rcases p₃ with ⟨argBytes, wordsWritten⟩
  dsimp only
  by_cases heq : wordsWritten = asz
  · rw [if_pos heq]; exact hE₂.trans (extends_writeRec _ _)
  · rw [if_neg heq]; exact hE₂.trans (extends_writeRec _ _)

theorem addContextSwitchRecordWithArgs_extends (w : Writer)
    (cpu st ot it ts : Nat) (arguments : List (String × ArgValue)) :
    Extends w (w.addContextSwitchRecordWithArgs cpu st ot it ts arguments).2 := by
  unfold Writer.addContextSwitchRecordWithArgs
  by_cases hst : 15 < st
  · rw [if_pos hst]; exact Extends.refl w
  rw [if_neg hst]
  rcases h₂ : w.sizeAndInternArgs arguments with ⟨res₂, w₂⟩
  have hE₂ : Extends w w₂ := by
    have := sizeAndInternArgs_extends w arguments; rwa [h₂] at this
  cases res₂ with
  | error e => exact hE₂
  | ok asz =>
  dsimp only
  rcases h₃ : w₂.encodeArgs arguments with e₃ | p₃
  · exact hE₂
  rcases p₃ with ⟨argBytes, wordsWritten⟩
  dsimp only
  by_cases heq : wordsWritten = asz
  · rw [if_pos heq]; exact hE₂.trans (extends_writeRec _ _)
  · rw [if_neg heq]; exact hE₂.trans (extends_writeRec _ _)

theorem addThreadWakeupRecordWithArgs_extends (w : Writer)
    (cpu wt ts : Nat) (arguments : List (String × ArgValue)) :
    Extends w (w.addThreadWakeupRecordWithArgs cpu wt ts arguments).2 := by
  unfold Writer.addThreadWakeupRecordWithArgs
  rcases h₂ : w.sizeAndInternArgs arguments with ⟨res₂, w₂⟩
  have hE₂ : Extends w w₂ := by
    have := sizeAndInternArgs_extends w arguments; rwa [h₂] at this
  cases res₂ with
  | error e => exact hE₂
  | ok asz =>
  dsimp only
  rcases h₃ : w₂.encodeArgs arguments with e₃ | p₃
  · exact hE₂
  rcases p₃ with ⟨argBytes, wordsWritten⟩
  dsimp only
  by_cases heq : wordsWritten = asz
  · rw [if_pos heq]; exact hE₂.trans (extends_writeRec _ _)
  · rw [if_neg heq]; exact hE₂.trans (extends_writeRec _ _)

/-- Every public call only appends records and grows the tables, whether it
succeeds or fails. -/
theorem runOp_extends (w : Writer) (op : Op) : Extends w (w.runOp op).2 := by
  cases op with
  | providerInfo pid pn => exact addProviderInfoRecord_extends w pid pn
  | providerSection pid => exact extends_writeRec _ _
  | providerEvent pid et => exact extends_writeRec _ _
  | initialization ticks => exact extends_writeRec _ _
  | processName pid name => exact setProcessName_extends w pid name
  | threadName pid tid name => exact setThreadName_extends w pid tid name
  | instant c n p t ts args => exact writeEvent_extends w _ c n p t ts args _ _
  | counter c n p t ts args cid => exact writeEvent_extends w _ c n p t ts args _ _
  | durationBegin c n p t ts args => exact writeEvent_extends w _ c n p t ts args _ _
  | durationEnd c n p t ts args => exact writeEvent_extends w _ c n p t ts args _ _
  | durationComplete c n p t b e args => exact writeEvent_extends w _ c n p t b args _ _
  | asyncBegin c n p t ts cid args => exact writeEvent_extends w _ c n p t ts args _ _
  | asyncInstant c n p t ts cid args => exact writeEvent_extends w _ c n p t ts args _ _
  | asyncEnd c n p t ts cid args => exact writeEvent_extends w _ c n p t ts args _ _
  | flowBegin c n p t ts cid args => exact writeEvent_extends w _ c n p t ts args _ _
  | flowStep c n p t ts cid args => exact writeEvent_extends w _ c n p t ts args _ _
  | flowEnd c n p t ts cid args => exact writeEvent_extends w _ c n p t ts args _ _
  | blob name data bt => exact addBlobRecord_extends w name data bt
  | userspaceObject name pid ptr args => exact addUserspaceObjectRecord_extends w name pid ptr args
  | contextSwitch cpu st ot it ts args =>
      exact addContextSwitchRecordWithArgs_extends w cpu st ot it ts args
  | threadWakeup cpu tid ts args =>
      exact addThreadWakeupRecordWithArgs_extends w cpu tid ts args

/-- Every successful public call appends a block of size-faithful records
and preserves the interning invariant. -/
theorem runOp_ok_spec (w : Writer) (op : Op) (hok : (w.runOp op).1 = .ok ()) :
    OpSpec w (w.runOp op).2 := by
  have hpair : w.runOp op = (.ok (), (w.runOp op).2) := by
    have h0 : w.runOp op = ((w.runOp op).1, (w.runOp op).2) := rfl
    rw [hok] at h0
    exact h0
  cases op with
  | providerInfo pid pn => exact addProviderInfoRecord_ok_spec hpair
  | providerSection pid => exact addProviderSectionRecord_spec hpair
  | providerEvent pid et => exact addProviderEventRecord_spec hpair
  | initialization ticks => exact addInitializationRecord_spec hpair
  | processName pid name => exact setProcessName_ok_spec hpair
  | threadName pid tid name => exact setThreadName_ok_spec hpair
  | instant c n p t ts args => exact writeEvent_op_spec hpair rfl
  | counter c n p t ts args cid => exact writeEvent_op_spec hpair rfl
  | durationBegin c n p t ts args => exact writeEvent_op_spec hpair rfl
  | durationEnd c n p t ts args => exact writeEvent_op_spec hpair rfl
  | durationComplete c n p t b e args => exact writeEvent_op_spec hpair rfl
  | asyncBegin c n p t ts cid args => exact writeEvent_op_spec hpair rfl
  | asyncInstant c n p t ts cid args => exact writeEvent_op_spec hpair rfl
  | asyncEnd c n p t ts cid args => exact writeEvent_op_spec hpair rfl
  | flowBegin c n p t ts cid args => exact writeEvent_op_spec hpair rfl
  | flowStep c n p t ts cid args => exact writeEvent_op_spec hpair rfl
  | flowEnd c n p t ts cid args => exact writeEvent_op_spec hpair rfl
  | blob name data bt => exact addBlobRecord_ok_spec hpair
  | userspaceObject name pid ptr args => exact addUserspaceObjectRecord_ok_spec hpair
  | contextSwitch cpu st ot it ts args => exact addContextSwitchRecordWithArgs_ok_spec hpair
  | threadWakeup cpu tid ts args => exact addThreadWakeupRecordWithArgs_ok_spec hpair

/-! ## Bit-level arithmetic helpers -/

theorem or_mod_two (x y : Nat) : (x ||| y) % 2 = x % 2 ||| y % 2 := by
  have h1 := Nat.testBit_lor x y 0
  simp only [Nat.testBit_zero] at h1
  have hx : x % 2 = 0 ∨ x % 2 = 1 := Nat.mod_two_eq_zero_or_one x
  have hy : y % 2 = 0 ∨ y % 2 = 1 := Nat.mod_two_eq_zero_or_one y
  have hxy : (x ||| y) % 2 = 0 ∨ (x ||| y) % 2 = 1 := Nat.mod_two_eq_zero_or_one _
  rcases hx with hx | hx <;> rcases hy with hy | hy <;> rcases hxy with hxy | hxy <;>
    simp [hx, hy, hxy] at h1 ⊢

/-- Bitwise or of a shifted value with a value that fits below the shift is
plain addition: the algebraic form of Go's header packing when the fields
do not overlap. -/
theorem lor_disjoint_eq_add (k : Nat) : ∀ (a b : Nat), b < 2 ^ k →
    (a <<< k) ||| b = a * 2 ^ k + b := by
  induction k with
  | zero =>
    intro a b hb
    interval_cases b
    simp [Nat.shiftLeft_eq]
  | succ k ih =>
    intro a b hb
    have key : ((a <<< (k + 1)) ||| b) / 2 = a * 2 ^ k + b / 2 := by
      rw [Nat.or_div_two]
      have h2 : (a <<< (k + 1)) / 2 = a <<< k := by
        rw [Nat.shiftLeft_eq, Nat.shiftLeft_eq, Nat.pow_succ, ← Nat.mul_assoc,
          Nat.mul_div_cancel _ (by norm_num)]
      rw [h2, ih a (b / 2) (by omega)]
    have keymod : ((a <<< (k + 1)) ||| b) % 2 = b % 2 := by
      have h3 : (a <<< (k + 1)) % 2 = 0 := by
        rw [Nat.shiftLeft_eq, Nat.pow_succ, ← Nat.mul_assoc]
        exact Nat.mul_mod_left _ 2
      rw [or_mod_two, h3]
      have hy := Nat.mod_two_eq_zero_or_one b
      rcases hy with hy | hy <;> simp [hy]
    have := Nat.div_add_mod ((a <<< (k + 1)) ||| b) 2
    rw [key, keymod] at this
    rw [← this, Nat.pow_succ, ← Nat.mul_assoc]
    omega

/-- Bits [48:64) of a blob record header: the blob-type field, with the
high bits of an oversized length (its bits [16:32)) or-ed on top of it. -/
theorem blobHeader_hi16 {blobType blobSize nameIndex sizeInWords : Nat}
    (hn : nameIndex < 2 ^ 16) (hs : sizeInWords < 2 ^ 12) :
    (((blobType <<< 48) ||| (blobSize <<< 32) ||| (nameIndex <<< 16) |||
      (sizeInWords <<< 4) ||| recordTypeBlob) >>> 48) % 2 ^ 16
      = (blobType ||| (blobSize >>> 16)) % 2 ^ 16 := by
  show (((blobType <<< 48) ||| (blobSize <<< 32) ||| (nameIndex <<< 16) |||
      (sizeInWords <<< 4) ||| 5) >>> 48) % 2 ^ 16 = _
  apply Nat.eq_of_testBit_eq
  intro j
  simp only [Nat.testBit_mod_two_pow, Nat.testBit_shiftRight, Nat.testBit_lor,
    Nat.testBit_shiftLeft]
  by_cases hj : j < 16
  · simp only [hj, decide_eq_true_eq, decide_eq_true hj, Bool.true_and]
    have h48 : 48 ≤ 48 + j := by omega
    have h32 : 32 ≤ 48 + j := by omega
    have h16 : 16 ≤ 48 + j := by omega
    have h4 : 4 ≤ 48 + j := by omega
    simp only [decide_eq_true h48, decide_eq_true h32, decide_eq_true h16,
      decide_eq_true h4, Bool.true_and]
    have hn' : nameIndex.testBit (48 + j - 16) = false :=
      Nat.testBit_lt_two_pow
        (lt_of_lt_of_le hn (Nat.pow_le_pow_right (by norm_num) (by omega)))
    have hs' : sizeInWords.testBit (48 + j - 4) = false :=
      Nat.testBit_lt_two_pow
        (lt_of_lt_of_le hs (Nat.pow_le_pow_right (by norm_num) (by omega)))
    have h5 : (5 : Nat).testBit (48 + j) = false :=
      Nat.testBit_lt_two_pow
        (lt_of_lt_of_le (by norm_num : (5 : Nat) < 2 ^ 3)
          (Nat.pow_le_pow_right (by norm_num) (by omega)))
    rw [hn', hs', h5]
    have e1 : 48 + j - 48 = j := by omega
    have e2 : 48 + j - 32 = 16 + j := by omega
    rw [e1, e2]
    simp
  · simp [hj]

/-! ## Whole-run lemmas -/

theorem runOps_extends (w : Writer) (l : List Op) : Extends w (w.runOps l) := by
  induction l generalizing w with
  | nil => exact Extends.refl w
  | cons op rest ih =>
    exact (runOp_extends w op).trans (ih (w.runOp op).2)

theorem okRun_cons {w : Writer} {op : Op} {rest : List Op}
    (h : w.okRun (op :: rest) = true) :
    (w.runOp op).1 = .ok () ∧ ((w.runOp op).2).okRun rest = true := by
  unfold Writer.okRun at h
  rw [Bool.and_eq_true] at h
  refine ⟨?_, h.2⟩
  rcases hr : (w.runOp op).1 with e | u
  · rw [hr] at h; simp at h
  · cases u; rfl

/-- The interning invariant holds after any error-free run that stays
within the `uint16` index space of the two tables. -/
theorem runOps_inv (l : List Op) : ∀ (w : Writer), Inv w → w.okRun l = true →
    (w.runOps l).stringTable.length ≤ 65535 →
    (w.runOps l).threadTable.length ≤ 65535 → Inv (w.runOps l) := by
  induction l with
  | nil => intro w hw _ _ _; exact hw
  | cons op rest ih =>
    intro w hw hok hbs hbt
    obtain ⟨hok₁, hokr⟩ := okRun_cons hok
    have hrest : Extends (w.runOp op).2 (((w.runOp op).2).runOps rest) :=
      runOps_extends _ rest
    have hbs₁ : (w.runOp op).2.stringTable.length ≤ 65535 :=
      le_trans hrest.str_len hbs
    have hbt₁ : (w.runOp op).2.threadTable.length ≤ 65535 :=
      le_trans hrest.thr_len hbt
    have hI₁ : Inv (w.runOp op).2 := (runOp_ok_spec w op hok₁).2 hw hbs₁ hbt₁
    exact ih (w.runOp op).2 hI₁ hokr hbs hbt

theorem streamInv_of_inv {w : Writer} (hw : Inv w) : streamInv w = true := by
  unfold streamInv
  rw [Bool.and_eq_true, Bool.and_eq_true]
  refine ⟨⟨?_, ?_⟩, hw.ord⟩
  · rw [beq_iff_eq, hw.sync_str, hw.dense_str, List.reverse_reverse]
  · rw [beq_iff_eq, hw.sync_thr, hw.dense_thr, List.reverse_reverse]

/-! ## The claims -/

/-- **C1, counterexample.**  The emission invariant does *not* hold after
every operation including failing ones: `SetProcessName` with a 256-byte
name makes `getOrCreateStringIndex` issue index 1 and store the mapping
*before* `addStringRecord` rejects the string, so index 1 is issued but no
String Record is ever written. -/
theorem fxt_C1_counterexample :
    ¬ (∀ l : List Op, streamInv (Writer.init.runOps l) = true) := by
  intro hall
  exact absurd (hall [Op.processName 1 longStr256]) (by decide)

/-- **C1 (amended).**  After every run of Writer operations in which every
operation returned success, and in which fewer than 65536 strings and
thread pairs were interned (the Go `uint16` counters do not wrap), every
string index and thread index issued so far has exactly one definition
record in the stream, the definition records appear in increasing index
order `1, 2, …`, and every record that references an index appears after
that index's definition record. -/
theorem fxt_C1 (l : List Op) (hok : Writer.init.okRun l = true)
    (hbs : (Writer.init.runOps l).stringTable.length ≤ 65535)
    (hbt : (Writer.init.runOps l).threadTable.length ≤ 65535) :
    streamInv (Writer.init.runOps l) = true :=
  streamInv_of_inv (runOps_inv l Writer.init Inv.init hok hbs hbt)

/-- **C1, witness**: the amended claim evaluated on a small error-free
trace. -/
theorem fxt_C1_witness :
    Writer.init.okRun c1Run = true ∧
    (Writer.init.runOps c1Run).stringTable.length ≤ 65535 ∧
    (Writer.init.runOps c1Run).threadTable.length ≤ 65535 ∧
    streamInv (Writer.init.runOps c1Run) = true :=
  ⟨by decide, by decide, by decide, fxt_C1 c1Run (by decide) (by decide) (by decide)⟩

/-- **C2.**  For every record category and every successful record-adding
call, every record the call appends declares a size-in-words value whose
product with 8 equals the number of bytes emitted for that record (header
word, fixed fields, argument payload and padding included). -/
theorem fxt_C2 (w : Writer) (op : Op) (hok : (w.runOp op).1 = .ok ()) :
    ∀ r ∈ (w.runOp op).2.out.drop w.out.length,
      ∀ n, r.sizeWords = some n → n * 8 = r.bytes.length := by
  obtain ⟨⟨ds, hds, hg⟩, _⟩ := runOp_ok_spec w op hok
  intro r hr n hn
  rw [hds, List.drop_left] at hr
  exact hg r hr n hn

/-- **C2, witness**: the size equation evaluated on a counter event with
arguments (string records, a thread record and the event record itself are
appended by this call). -/
theorem fxt_C2_witness :
    (2 : Nat) * 8 = (stringRecord 1 "cat").bytes.length :=
  fxt_C2 Writer.init c2Op (by decide) (stringRecord 1 "cat") (by decide) 2 (by decide)

/-- **C3, counterexample.**  As stated the claim fails for strings longer
than 255 UTF-8 bytes: the first `getOrCreateStringIndex` call on such a
string returns an error and emits no String Record at all. -/
theorem fxt_C3_counterexample :
    ¬ (∀ (w : Writer) (s : String), w.stringTable.lookup s = none →
        ∃ k, (w.getOrCreateStringIndex s).1 = .ok k ∧
          (w.getOrCreateStringIndex s).2.out = w.out ++ [stringRecord k s]) := by
  intro hall
  obtain ⟨k, hk, _⟩ := hall Writer.init longStr256 (by decide)
  have heval : (Writer.init.getOrCreateStringIndex longStr256).1
      = Except.error Err.stringTooLong := by decide
  rw [heval] at hk
  cases hk

/-- **C3 (amended).**  For every string of UTF-8 length at most 255: the
first `getOrCreateStringIndex` call emits exactly one String Record,
returns the current counter value `k`, and stores the mapping; an
immediate repeat returns the same `k` and leaves the writer untouched; and
after any further operations the table still maps the string to `k`, so a
later repeat still returns `k` and writes nothing. -/
theorem fxt_C3 (w : Writer) (s : String) (hlen : (strBytes s).length ≤ 255) :
    (w.stringTable.lookup s = none →
      w.getOrCreateStringIndex s =
        (.ok w.nextStringIndex,
          { stringTable := (s, w.nextStringIndex) :: w.stringTable
          , nextStringIndex := (w.nextStringIndex + 1) % 65536
          , threadTable := w.threadTable
          , nextThreadIndex := w.nextThreadIndex
          , out := w.out ++ [stringRecord w.nextStringIndex s] })) ∧
    (∀ i, w.stringTable.lookup s = some i → w.getOrCreateStringIndex s = (.ok i, w)) ∧
    (∀ i l, w.stringTable.lookup s = some i →
      (w.runOps l).stringTable.lookup s = some i ∧
      (w.runOps l).getOrCreateStringIndex s = (.ok i, w.runOps l)) := by
  refine ⟨?_, ?_, ?_⟩
  · intro hmiss
    exact goc_str_miss_ok hmiss hlen
  · intro i hi
    exact goc_str_hit hi
  · intro i l hi
    have hpers : (w.runOps l).stringTable.lookup s = some i :=
      (runOps_extends w l).str_lookup s i hi
    exact ⟨hpers, goc_str_hit hpers⟩

/-- **C3, witness**: the amended claim evaluated at a fresh writer and the
string `"Main"`. -/
theorem fxt_C3_witness :
    (strBytes "Main").length ≤ 255 ∧
    ((Writer.init.stringTable.lookup "Main" = none →
      Writer.init.getOrCreateStringIndex "Main" =
        (.ok Writer.init.nextStringIndex,
          { stringTable := ("Main", Writer.init.nextStringIndex) :: Writer.init.stringTable
          , nextStringIndex := (Writer.init.nextStringIndex + 1) % 65536
          , threadTable := Writer.init.threadTable
          , nextThreadIndex := Writer.init.nextThreadIndex
          , out := Writer.init.out ++ [stringRecord Writer.init.nextStringIndex "Main"] })) ∧
    (∀ i, Writer.init.stringTable.lookup "Main" = some i →
      Writer.init.getOrCreateStringIndex "Main" = (.ok i, Writer.init)) ∧
    (∀ i l, Writer.init.stringTable.lookup "Main" = some i →
      (Writer.init.runOps l).stringTable.lookup "Main" = some i ∧
      (Writer.init.runOps l).getOrCreateStringIndex "Main" =
        (.ok i, Writer.init.runOps l))) :=
  ⟨by decide, fxt_C3 Writer.init "Main" (by decide)⟩

/-- **C4** (bug demonstration).  A newly seen string is always assigned the
*current* value of the `uint16` counter, and the counter advances modulo
65536.  Starting from 1, interning 65535 distinct strings brings the
counter to 0, so the 65536-th distinct string is assigned the reserved
index 0 — the code never guards against the wrap-around. -/
theorem fxt_C4_wrap (w : Writer) (s : String)
    (hmiss : w.stringTable.lookup s = none)
    (hlen : (strBytes s).length ≤ 255) :
    (w.getOrCreateStringIndex s).1 = .ok w.nextStringIndex ∧
    (w.getOrCreateStringIndex s).2.nextStringIndex = (w.nextStringIndex + 1) % 65536 := by
  rw [goc_str_miss_ok hmiss hlen]
  exact ⟨rfl, rfl⟩

/-- **C4, witness**: on a writer whose counter has wrapped to 0 (the state
reached after 65535 distinct interns), the next fresh string is assigned
index 0. -/
theorem fxt_C4_wrap_witness :
    (c4Writer.getOrCreateStringIndex "x").1 = .ok 0 ∧
    (c4Writer.getOrCreateStringIndex "x").2.nextStringIndex = 1 := by
  have h := fxt_C4_wrap c4Writer "x" (by decide) (by decide)
  exact ⟨h.1, h.2⟩

/-- **C5.**  Size/encode lock-step: whenever the encode pass succeeds, the
word count it reports is the sum of `getArgumentSizeInWords` over the same
arguments, and it emits exactly eight bytes per word. -/
theorem fxt_C5 (w : Writer) (args : List (String × ArgValue)) (bs : List Nat) (n : Nat)
    (h : w.encodeArgs args = .ok (bs, n)) :
    n = (args.map (fun kv => getArgumentSizeInWords kv.2)).sum ∧ bs.length = 8 * n :=
  ⟨(encodeArgs_ok_spec h).2, (encodeArgs_ok_spec h).1⟩

/-- **C5, witness**: the lock-step equation evaluated on one argument of
every supported kind, and on the empty argument list. -/
theorem fxt_C5_witness :
    (c5Writer.encodeArgs c5Args = .ok (c5Enc.1, c5Enc.2)) ∧
    c5Enc.2 = (c5Args.map (fun kv => getArgumentSizeInWords kv.2)).sum ∧
    c5Enc.1.length = 8 * c5Enc.2 ∧
    ((0 : Nat) = (([] : List (String × ArgValue)).map
      (fun kv => getArgumentSizeInWords kv.2)).sum ∧ ([] : List Nat).length = 8 * 0) :=
  ⟨by decide, (fxt_C5 c5Writer c5Args c5Enc.1 c5Enc.2 (by decide)).1,
   (fxt_C5 c5Writer c5Args c5Enc.1 c5Enc.2 (by decide)).2,
   fxt_C5 c5Writer [] [] 0 (by decide)⟩

/-- Bits [4:16) of a String Record header are exactly the size-in-words
value (no neighbouring field can leak into them). -/
theorem stringHeader_size_field {strLen i m : Nat} (hm : m < 2 ^ 12) :
    (((strLen <<< 32) ||| (i <<< 16) ||| (m <<< 4) ||| recordTypeString) >>> 4) % 2 ^ 12
      = m := by
  show (((strLen <<< 32) ||| (i <<< 16) ||| (m <<< 4) ||| 2) >>> 4) % 2 ^ 12 = m
  apply Nat.eq_of_testBit_eq
  intro j
  simp only [Nat.testBit_mod_two_pow, Nat.testBit_shiftRight, Nat.testBit_lor,
    Nat.testBit_shiftLeft]
  by_cases hj : j < 12
  · simp only [hj, decide_eq_true_eq, decide_eq_true hj, Bool.true_and]
    have h32 : ¬ (4 + j ≥ 32) := by omega
    have h16 : ¬ (4 + j ≥ 16) := by omega
    have h4 : 4 + j ≥ 4 := by omega
    simp only [decide_eq_false h32, decide_eq_false h16, decide_eq_true h4,
      Bool.false_and, Bool.true_and, Bool.false_or]
    have h2 : (2 : Nat).testBit (4 + j) = false :=
      Nat.testBit_lt_two_pow
        (lt_of_lt_of_le (by norm_num : (2 : Nat) < 2 ^ 2)
          (Nat.pow_le_pow_right (by norm_num) (by omega)))
    rw [h2]
    have e1 : 4 + j - 4 = j := by omega
    rw [e1]
    simp
  · simp only [hj, decide_eq_false hj, Bool.false_and]
    exact (Nat.testBit_lt_two_pow (lt_of_lt_of_le hm
      (Nat.pow_le_pow_right (by norm_num) (by omega)))).symm

/-- **C6, counterexample.**  Emitted records do exceed a size-in-words
value of 15: interning a 120-byte string emits a String Record declaring
16 words. -/
theorem fxt_C6_counterexample :
    ¬ (∀ (l : List Op), ∀ r ∈ (Writer.init.runOps l).out,
        ∀ n, r.sizeWords = some n → n ≤ 15) := by
  intro hall
  have h := hall [Op.processName 1 longStr120] (stringRecord 1 longStr120)
    (by decide) 16 (by decide)
  exact absurd h (by decide)

/-- **C6 (amended).**  The size-in-words value of a String Record is not
bounded by 15: a string of `L ≤ 255` bytes declares `1 + ⌈L/8⌉` words, up
to 33 for a maximal 255-byte string.  It nevertheless fits the size field,
which in this code occupies the 12 bits [4:16) of the header word (the next
field, the string index, starts at bit 16): the value is below `2 ^ 12` and
reading bits [4:16) of the emitted header returns exactly it. -/
theorem fxt_C6 (w w' : Writer) (i : Nat) (s : String)
    (h : w.addStringRecord i s = (.ok (), w')) :
    ∃ m, (stringRecord i s).sizeWords = some m ∧
      w'.out = w.out ++ [stringRecord i s] ∧
      m = 1 + paddedLen (strBytes s).length / 8 ∧
      m ≤ 33 ∧ m < 2 ^ 12 ∧
      ((stringRecord i s).header >>> 4) % 2 ^ 12 = m := by
  unfold Writer.addStringRecord at h
  by_cases hlen : 255 < (strBytes s).length
  · rw [if_pos hlen] at h
    simp at h
  · rw [if_neg hlen] at h
    simp only [Prod.mk.injEq] at h
    replace h := h.2
    subst h
    have hb : 1 + paddedLen (strBytes s).length / 8 ≤ 33 := by
      unfold paddedLen
      omega
    refine ⟨1 + paddedLen (strBytes s).length / 8, rfl, rfl, rfl, hb, by omega, ?_⟩
    exact stringHeader_size_field (by omega)

/-- **C6, witness**: the amended claim evaluated on the maximal 255-byte
string, whose String Record declares 33 words. -/
theorem fxt_C6_witness :
    ∃ m, (stringRecord 1 maxStr255).sizeWords = some m ∧
      c6Writer.out = Writer.init.out ++ [stringRecord 1 maxStr255] ∧
      m = 1 + paddedLen (strBytes maxStr255).length / 8 ∧
      m ≤ 33 ∧ m < 2 ^ 12 ∧
      ((stringRecord 1 maxStr255).header >>> 4) % 2 ^ 12 = m :=
  fxt_C6 Writer.init c6Writer 1 maxStr255 (by decide)

/-- **C7.**  A provider name or string longer than 255 UTF-8 bytes is
rejected with the corresponding too-long error before any bytes are
written: `AddProviderInfoRecord` returns the error with the writer
untouched, `addStringRecord` likewise, and a first-time
`getOrCreateStringIndex` returns the error with the output stream exactly
as it was (only the in-memory table gained the doomed entry). -/
theorem fxt_C7 (w : Writer) (pid i : Nat) (s : String)
    (hlen : 255 < (strBytes s).length) :
    w.addProviderInfoRecord pid s = (.error .providerNameTooLong, w) ∧
    w.addStringRecord i s = (.error .stringTooLong, w) ∧
    (w.stringTable.lookup s = none →
      (w.getOrCreateStringIndex s).1 = .error .stringTooLong ∧
      (w.getOrCreateStringIndex s).2.out = w.out) := by
  refine ⟨?_, ?_, ?_⟩
  · unfold Writer.addProviderInfoRecord
    rw [if_pos hlen]
  · unfold Writer.addStringRecord
    rw [if_pos hlen]
  · intro hmiss
    rw [goc_str_miss_err hmiss hlen]
    exact ⟨rfl, rfl⟩

/-- **C7, witness**: the error behaviour evaluated on a 256-byte string. -/
theorem fxt_C7_witness :
    Writer.init.addProviderInfoRecord 7 longStr256 =
      (.error .providerNameTooLong, Writer.init) ∧
    Writer.init.addStringRecord 1 longStr256 = (.error .stringTooLong, Writer.init) ∧
    (Writer.init.stringTable.lookup longStr256 = none →
      (Writer.init.getOrCreateStringIndex longStr256).1 = .error .stringTooLong ∧
      (Writer.init.getOrCreateStringIndex longStr256).2.out = Writer.init.out) :=
  fxt_C7 Writer.init 7 1 longStr256 (by decide)

/-- **C8.**  Call-order and interning-order guarantee: (a) every public
call only appends records, so records appear in exactly the order of the
calls that produced them; (b) a successful event call appends a block of
definition records — containing the String Records for a newly seen
category or name and the Thread Record for a newly seen (process, thread)
pair, and no Thread Record when the pair was already known — followed
immediately by the event record, whose header word packs the thread-table
index at bit 24 (and the category/name string indices at bits 32/48), not
the raw process/thread identifiers. -/
theorem fxt_C8 :
    (∀ (w : Writer) (op : Op), ∃ ds, (w.runOp op).2.out = w.out ++ ds) ∧
    (∀ (w w' : Writer) (et : Nat) (category name : String)
        (processId threadId timestamp : Nat) (arguments : List (String × ArgValue))
        (extra : Nat) (trailing : List Nat),
      w.writeEventHeaderAndGenericData et category name processId threadId timestamp
          arguments extra trailing = (.ok (), w') →
      ∃ ds ci ni ti asz argBytes,
        w'.out = w.out ++ ds ++ [eventRecord et ci ni ti arguments.length
          (1 + 1 + asz + extra) timestamp argBytes trailing (w'.argStrRefs arguments)] ∧
        (∀ r ∈ ds, isDefRecord r = true) ∧
        w'.stringTable.lookup category = some ci ∧
        w'.stringTable.lookup name = some ni ∧
        w'.threadTable.lookup (processId, threadId) = some ti ∧
        (w.stringTable.lookup category = none →
          ∃ r ∈ ds, r.kind = .strDef ci category) ∧
        (w.stringTable.lookup name = none → ∃ r ∈ ds, r.kind = .strDef ni name) ∧
        (w.threadTable.lookup (processId, threadId) = none →
          ∃ r ∈ ds, r.kind = .thrDef ti processId threadId) ∧
        (∀ j, w.threadTable.lookup (processId, threadId) = some j →
          ti = j ∧ ∀ r ∈ ds, ∀ i pp tt, r.kind ≠ RecKind.thrDef i pp tt) ∧
        (eventRecord et ci ni ti arguments.length (1 + 1 + asz + extra) timestamp
          argBytes trailing (w'.argStrRefs arguments)).header =
          (ni <<< 48) ||| (ci <<< 32) ||| (ti <<< 24) ||| (arguments.length <<< 20) |||
          (et <<< 16) ||| ((1 + 1 + asz + extra) <<< 4) ||| recordTypeEvent) := by
  refine ⟨fun w op => (runOp_extends w op).out_app, ?_⟩
  intro w w' et category name processId threadId timestamp arguments extra trailing h
  obtain ⟨ds, ci, ni, ti, asz, argBytes, hout, hgood, hsum, hlen, henc,
    hci, hni, hti, hmem, hnc, hnn, hnt, hht, hinv⟩ := writeEvent_ok_spec h
  exact ⟨ds, ci, ni, ti, asz, argBytes, hout, fun r hr => (hgood r hr).1,
    hci, hni, hti, hnc, hnn, hnt, hht, rfl⟩

/-- **C8, witness**: the end-to-end scenario of the specification —
`SetThreadName(3, 45, "Main")` followed by an event on the same pair: the
event's definitions land right before the event record, the already-known
pair produces no second Thread Record, and the header embeds the thread
index. -/
theorem fxt_C8_witness :
    ∃ ds ci ni ti asz argBytes,
      c8w1.out = c8w0.out ++ ds ++ [eventRecord eventTypeInstant ci ni ti 0
        (1 + 1 + asz + 0) 300 argBytes [] (c8w1.argStrRefs [])] ∧
      (∀ r ∈ ds, isDefRecord r = true) ∧
      c8w1.stringTable.lookup "OtherThing" = some ci ∧
      c8w1.stringTable.lookup "EventHappened" = some ni ∧
      c8w1.threadTable.lookup (3, 45) = some ti ∧
      (c8w0.stringTable.lookup "OtherThing" = none →
        ∃ r ∈ ds, r.kind = .strDef ci "OtherThing") ∧
      (c8w0.stringTable.lookup "EventHappened" = none →
        ∃ r ∈ ds, r.kind = .strDef ni "EventHappened") ∧
      (c8w0.threadTable.lookup (3, 45) = none →
        ∃ r ∈ ds, r.kind = .thrDef ti 3 45) ∧
      (∀ j, c8w0.threadTable.lookup (3, 45) = some j →
        ti = j ∧ ∀ r ∈ ds, ∀ i pp tt, r.kind ≠ RecKind.thrDef i pp tt) ∧
      (eventRecord eventTypeInstant ci ni ti 0 (1 + 1 + asz + 0) 300 argBytes []
        (c8w1.argStrRefs [])).header =
        (ni <<< 48) ||| (ci <<< 32) ||| (ti <<< 24) ||| ((0 : Nat) <<< 20) |||
        (eventTypeInstant <<< 16) ||| ((1 + 1 + asz + 0) <<< 4) ||| recordTypeEvent :=
  fxt_C8.2 c8w0 c8w1 eventTypeInstant "OtherThing" "EventHappened" 3 45 300 [] 0 []
    (by decide)

/-- **C9, counterexample.**  As stated the claim fails: Go leaves map
iteration order unspecified (and randomizes it per `range` loop), so two
calls to `AddInstantEventWithArgs` with the *identical* two-entry argument
map may enumerate it in different orders.  `c9PermA` and `c9PermB` are the
two enumerations of one such map (they are permutations of each other);
both successive calls succeed and the second appends exactly one record,
yet the two appended event records differ byte for byte, because the
argument words — and even the string indices interned for the keys — come
out in different orders.  Byte identity of repeated calls is therefore not
a guarantee the program gives for maps of two or more entries. -/
theorem fxt_C9_counterexample :
    c9PermA.Perm c9PermB ∧
    (Writer.init.addInstantEventWithArgs "cat" "nm" 3 45 100 c9PermA).1 = .ok () ∧
    (c9wA.addInstantEventWithArgs "cat" "nm" 3 45 100 c9PermB).1 = .ok () ∧
    c9wB.out = c9wA.out ++ [c9wB.out.getLastD magicRecord] ∧
    (c9wA.out.getLastD magicRecord).bytes ≠ (c9wB.out.getLastD magicRecord).bytes := by
  refine ⟨by decide, by decide, by decide, by decide, by decide⟩

/-- **C9 (amended).**  Determinism of repeated event calls holds only up
to the enumeration order of the argument map, which Go does not fix: after
a successful `AddInstantEventWithArgs`, issuing the identical call again
*with the arguments enumerated in the same order* (automatic for maps with
at most one entry, e.g. every `AddInstantEvent` call) succeeds and appends
one more event record that is equal, field for field and therefore byte
for byte, to the first one — while appending no further String or Thread
definition records (the first call's block `ds` holds the only ones). -/
theorem fxt_C9 (w w₁ : Writer) (category name : String) (pid tid ts : Nat)
    (args : List (String × ArgValue))
    (h : w.addInstantEventWithArgs category name pid tid ts args = (.ok (), w₁)) :
    ∃ ds ev, w₁.out = w.out ++ ds ++ [ev] ∧
      (∀ r ∈ ds, isDefRecord r = true) ∧
      w₁.addInstantEventWithArgs category name pid tid ts args =
        (.ok (), w₁.writeRec ev) ∧
      (w₁.writeRec ev).out = w₁.out ++ [ev] := by
  obtain ⟨ds, ci, ni, ti, asz, argBytes, hout, hgood, hsum, hlen, henc,
    hci, hni, hti, hmem, hnc, hnn, hnt, hht, hinv⟩ := writeEvent_ok_spec h
  refine ⟨ds, eventRecord eventTypeInstant ci ni ti args.length (1 + 1 + asz + 0)
    ts argBytes [] (w₁.argStrRefs args), hout, fun r hr => (hgood r hr).1, ?_, rfl⟩
  exact writeEvent_of_stable hci hni hti hmem henc hsum

/-- **C9, witness**: the repeat-call guarantee evaluated on an instant
event with a string argument. -/
theorem fxt_C9_witness :
    ∃ ds ev, c9w1.out = Writer.init.out ++ ds ++ [ev] ∧
      (∀ r ∈ ds, isDefRecord r = true) ∧
      c9w1.addInstantEventWithArgs "cat" "nm" 3 45 100 [("k", ArgValue.str "v")] =
        (.ok (), c9w1.writeRec ev) ∧
      (c9w1.writeRec ev).out = c9w1.out ++ [ev] :=
  fxt_C9 Writer.init c9w1 "cat" "nm" 3 45 100 [("k", ArgValue.str "v")] (by decide)

/-- **C10.**  `AddBlobRecord` enforces no bound on the blob length: once
the name interns (or is already interned), the call succeeds for *every*
byte slice, emitting header, data and zero padding, with the header packed
from the unmasked length shifted to bit 32.  Consequently a length above
65535 has shifted bits reaching position 48 and beyond, and bits [48:64) of
the header read back as the blob type or-ed with the length's high bits
instead of the blob type alone. -/
theorem fxt_C10 (w : Writer) (name : String) (data : List Nat) (blobType : Nat)
    (hname : (strBytes name).length ≤ 255 ∨ ∃ i, w.stringTable.lookup name = some i) :
    (w.addBlobRecord name data blobType).1 = .ok () ∧
    ∃ ds ni, (w.addBlobRecord name data blobType).2.out =
        w.out ++ ds ++ [blobRecord ni data blobType] ∧
      (∀ r ∈ ds, isDefRecord r = true) ∧
      (blobRecord ni data blobType).header =
        (blobType <<< 48) ||| (data.length <<< 32) ||| (ni <<< 16) |||
        ((1 + paddedLen data.length / 8) <<< 4) ||| recordTypeBlob ∧
      (blobRecord ni data blobType).bytes.length = 8 + paddedLen data.length ∧
      (65535 < data.length → 2 ^ 48 ≤ data.length <<< 32) ∧
      (ni < 2 ^ 16 → 1 + paddedLen data.length / 8 < 2 ^ 12 →
        ((blobRecord ni data blobType).header >>> 48) % 2 ^ 16
          = (blobType ||| (data.length >>> 16)) % 2 ^ 16) := by
  obtain ⟨ni, w₁, hgoc⟩ : ∃ i w₁, w.getOrCreateStringIndex name = (.ok i, w₁) := by
    cases hl : w.stringTable.lookup name with
    | some i => exact ⟨i, w, goc_str_hit hl⟩
    | none =>
      rcases hname with hlen | ⟨i, hi⟩
      · exact ⟨w.nextStringIndex, _, goc_str_miss_ok hl hlen⟩
      · rw [hl] at hi; cases hi
  obtain ⟨ds, hds, hg⟩ : ∃ ds, w₁.out = w.out ++ ds ∧ goodStrDefs ds := by
    have := goc_str_delta w name
    rwa [hgoc] at this
  unfold Writer.addBlobRecord
  rw [hgoc]
  dsimp only
  refine ⟨rfl, ds, ni, ?_, ?_, rfl, ?_, ?_, ?_⟩
  · show w₁.out ++ [blobRecord ni data blobType] = _
    rw [hds, List.append_assoc]
  · intro r hr
    obtain ⟨⟨i, s, hk⟩, _⟩ := hg r hr
    unfold isDefRecord
    rw [hk]
  · have hle := paddedLen_le data.length
    show (u64LEBytes _ ++ (data ++ List.replicate (paddedLen data.length - data.length) 0)).length = _
    simp [u64LEBytes]
    omega
  · intro hlen65
    rw [Nat.shiftLeft_eq]
    calc (2 : Nat) ^ 48 = 65536 * 2 ^ 32 := by norm_num
    _ ≤ data.length * 2 ^ 32 := Nat.mul_le_mul_right _ (by omega)
  · intro h1 h2
    exact blobHeader_hi16 h1 h2

/-- **C10, witness**: the blob guarantees evaluated on a short blob. -/
theorem fxt_C10_witness :
    (Writer.init.addBlobRecord "b" [1, 2, 3] 1).1 = .ok () ∧
    ∃ ds ni, (Writer.init.addBlobRecord "b" [1, 2, 3] 1).2.out =
        Writer.init.out ++ ds ++ [blobRecord ni [1, 2, 3] 1] ∧
      (∀ r ∈ ds, isDefRecord r = true) ∧
      (blobRecord ni [1, 2, 3] 1).header =
        ((1 : Nat) <<< 48) ||| ((3 : Nat) <<< 32) ||| (ni <<< 16) |||
        ((1 + paddedLen 3 / 8) <<< 4) ||| recordTypeBlob ∧
      (blobRecord ni [1, 2, 3] 1).bytes.length = 8 + paddedLen 3 ∧
      (65535 < 3 → 2 ^ 48 ≤ (3 : Nat) <<< 32) ∧
      (ni < 2 ^ 16 → 1 + paddedLen 3 / 8 < 2 ^ 12 →
        ((blobRecord ni [1, 2, 3] 1).header >>> 48) % 2 ^ 16
          = ((1 : Nat) ||| ((3 : Nat) >>> 16)) % 2 ^ 16) :=
  fxt_C10 Writer.init "b" [1, 2, 3] 1 (Or.inl (by decide))

end Fxt
